import Mathlib

set_option exponentiation.threshold 1200

/-!
# Verification of the `hsize` byte-size conversion library

Shallow embedding of the core conversion engine of the `hsize` repository
(`src/constants.ts`, `src/parse.ts`, `src/format.ts`, `src/utils.ts`, the
decimal layer, and `src/extract.ts`), together with proofs settling the
frozen claims about the specification.

Modelling conventions:

* JavaScript numbers are modelled by `JSNum`: `NaN`, `±Infinity`, or a
  finite value carried as an exact rational.  Finite doubles are treated
  as exact rationals; the one double-specific effect the claims turn on —
  overflow of a too-large magnitude to `Infinity` when a `decimal.js`
  value is narrowed with `toNumber()` — is modelled exactly by
  `decimalToNumber` (threshold `2^1024 - 2^970`, the round-to-nearest
  overflow boundary).  Negative zero does not exist in the model; the
  source normalizes `-0` to `0` on entry to `format`, so no claim
  distinguishes them.
* `decimal.js` values (precision 80) are modelled by the same type.  Every
  decimal operation the claims exercise (products and quotients of powers
  of `10`/`1024` with small inputs) is exact at precision 80, so decimal
  arithmetic is modelled as exact extended-rational arithmetic.
* `DECIMAL_POWERS` entries are the exact powers `10^n`; the double
  literals `1e23`/`1e24` in the source differ from the exact powers in
  the last bits, but no claim depends on those two tiers.
* Locale-aware rendering/parsing (`Intl`) is outside the model: every
  claim uses the no-locale code paths, which the source selects when no
  `locale` option is given.
* Thrown `TypeError`/`RangeError` are modelled with `Except JSError`;
  `console.warn` in `parseBigInt` is modelled by a `warned` flag on the
  parse result.
-/

namespace HSize

/-- Model of a JavaScript number: `NaN`, `±Infinity`, or a finite value
(an exact rational, see the header comment). `decimal.js` values are
modelled by the same type; a `decimal.js` value is unbounded until it is
narrowed back to a number by `decimalToNumber`. -/
inductive JSNum where
  | nan : JSNum
  | inf : JSNum
  | neginf : JSNum
  | fin : ℚ → JSNum
deriving DecidableEq, Repr

namespace JSNum

/-- `Number.isFinite`. -/
def isFinite : JSNum → Bool
  | fin _ => true
  | _ => false

/-- `Number.isInteger`. -/
def isInteger : JSNum → Bool
  | fin q => q.den == 1
  | _ => false

/-- JS `<` comparison (`NaN` compares false with everything). -/
def lt : JSNum → JSNum → Bool
  | nan, _ => false
  | _, nan => false
  | inf, _ => false
  | neginf, neginf => false
  | neginf, _ => true
  | fin _, neginf => false
  | fin _, inf => true
  | fin a, fin b => a < b

/-- JS `>=` comparison (`NaN` compares false with everything). -/
def ge (a b : JSNum) : Bool :=
  match a, b with
  | nan, _ => false
  | _, nan => false
  | inf, _ => true
  | neginf, neginf => true
  | neginf, _ => false
  | fin _, inf => false
  | fin _, neginf => true
  | fin a, fin b => b ≤ a

/-- Absolute value (`Math.abs` / `Decimal.prototype.abs`). -/
def abs : JSNum → JSNum
  | nan => nan
  | inf => inf
  | neginf => inf
  | fin q => fin |q|

/-- Negation. -/
def neg : JSNum → JSNum
  | nan => nan
  | inf => neginf
  | neginf => inf
  | fin q => fin (-q)

/-- Multiplication with IEEE / `decimal.js` special-value semantics.
Finite products are exact (see header). -/
def mul : JSNum → JSNum → JSNum
  | nan, _ => nan
  | _, nan => nan
  | inf, inf => inf
  | inf, neginf => neginf
  | neginf, inf => neginf
  | neginf, neginf => inf
  | inf, fin q => if q = 0 then nan else if 0 < q then inf else neginf
  | fin q, inf => if q = 0 then nan else if 0 < q then inf else neginf
  | neginf, fin q => if q = 0 then nan else if 0 < q then neginf else inf
  | fin q, neginf => if q = 0 then nan else if 0 < q then neginf else inf
  | fin a, fin b => fin (a * b)

/-- Division with IEEE / `decimal.js` special-value semantics (the model
has no signed zero, so a zero divisor counts as positive). -/
def div : JSNum → JSNum → JSNum
  | nan, _ => nan
  | _, nan => nan
  | inf, inf => nan
  | inf, neginf => nan
  | neginf, inf => nan
  | neginf, neginf => nan
  | inf, fin q => if q < 0 then neginf else inf
  | neginf, fin q => if q < 0 then inf else neginf
  | fin _, inf => fin 0
  | fin _, neginf => fin 0
  | fin a, fin b =>
      if b = 0 then (if a = 0 then nan else if 0 < a then inf else neginf)
      else fin (a / b)

end JSNum

open JSNum

/-- Thrown JavaScript errors distinguished by their constructor. -/
inductive JSError where
  | typeError : String → JSError
  | rangeError : String → JSError
deriving DecidableEq, Repr

/-- Decidable equality of call results (`Except` carries either the
thrown error or the returned value). -/
instance {e a : Type} [DecidableEq e] [DecidableEq a] :
    DecidableEq (Except e a) := fun x y =>
  match x, y with
  | Except.ok v, Except.ok w =>
      if h : v = w then Decidable.isTrue (by rw [h])
      else Decidable.isFalse (by intro hc; cases hc; exact h rfl)
  | Except.ok _, Except.error _ => Decidable.isFalse (by intro hc; cases hc)
  | Except.error _, Except.ok _ => Decidable.isFalse (by intro hc; cases hc)
  | Except.error v, Except.error w =>
      if h : v = w then Decidable.isTrue (by rw [h])
      else Decidable.isFalse (by intro hc; cases hc; exact h rfl)

/-- Binary exponentiation with explicit fuel, so that evaluation depth
stays logarithmic in the exponent (scientific-notation exponents such as
`e309` would otherwise reduce with linear depth). -/
def fastNatPow : ℕ → ℕ → ℕ → ℕ
  | 0, _, _ => 1
  | f + 1, b, e =>
      if e = 0 then 1
      else (if e % 2 = 1 then b else 1) * fastNatPow f (b * b) (e / 2)


/-- `10 ^ e` computed with logarithmic reduction depth. -/
def pow10 (e : ℕ) : ℕ := fastNatPow (e + 1) 10 e


/-- The round-to-nearest overflow boundary of IEEE-754 doubles: an exact
magnitude of at least `2^1024 - 2^970` rounds to `Infinity` when narrowed
to a double. -/
def doubleOverflowBound : ℚ :=
  ((fastNatPow 11 2 1024 - fastNatPow 10 2 970 : ℕ) : ℚ)

/-- `decimalToNumber` (`src/decimal.ts`): narrow a `decimal.js` value to a
JS number.  In-range finite values are kept exactly (header comment);
magnitudes past the double range overflow to `±Infinity`. -/
def decimalToNumber : JSNum → JSNum
  | JSNum.fin q =>
      if doubleOverflowBound ≤ q then JSNum.inf
      else if q ≤ -doubleOverflowBound then JSNum.neginf
      else JSNum.fin q
  | x => x

/-- `Number(bigint)`: round-to-nearest-even narrowing of an arbitrary
integer to a double, modelled exactly (exact below `2^53`, round to the
nearest representable multiple of a power of two above, ties to even,
overflow to `Infinity`). -/
def jsNumOfInt (n : ℤ) : JSNum :=
  let a := n.natAbs
  if a ≤ 9007199254740992 then JSNum.fin n
  else
    let k := Nat.log2 a - 52
    let m := a / 2 ^ k
    let r := a % 2 ^ k
    let half := 2 ^ (k - 1)
    let m' := if half < r ∨ (r = half ∧ m % 2 = 1) then m + 1 else m
    let v : ℤ := (m' : ℤ) * 2 ^ k
    if ((fastNatPow 11 2 1024 : ℕ) : ℤ) ≤ v then (if n < 0 then JSNum.neginf else JSNum.inf)
    else if n < 0 then JSNum.fin (-v) else JSNum.fin v

/-! ## Rounding (`src/decimal.ts` / `src/utils.ts`) -/

/-- The four rounding methods accepted by the library. -/
inductive RoundingMethod where
  | round | floor | ceil | trunc
deriving DecidableEq, Repr

/-- The `decimal.js` rounding mode each method maps to via `ROUNDING_MAP`
(`round → ROUND_HALF_CEIL`, `floor → ROUND_FLOOR`, `ceil → ROUND_CEIL`,
`trunc → ROUND_DOWN`), applied to an exact rational: the resulting
integer. `ROUND_HALF_CEIL` rounds to the nearest integer with half-way
values going toward `+Infinity`; `ROUND_DOWN` rounds toward zero. -/
def roundingMapInt (m : RoundingMethod) (q : ℚ) : ℤ :=
  match m with
  | RoundingMethod.floor => ⌊q⌋
  | RoundingMethod.ceil => ⌈q⌉
  | RoundingMethod.trunc => if q < 0 then ⌈q⌉ else ⌊q⌋
  | RoundingMethod.round => if q - ⌊q⌋ < 1 / 2 then ⌊q⌋ else ⌊q⌋ + 1

/-- Is this JS number a non-negative integer (a valid `toDecimalPlaces` /
`toFixed` decimal-places argument)? -/
def isDpArg : JSNum → Bool
  | JSNum.fin q => q.den == 1 && 0 ≤ q.num
  | _ => false

/-- Extract the natural number from a valid decimal-places argument. -/
def dpArgToNat : JSNum → ℕ
  | JSNum.fin q => q.num.toNat
  | _ => 0

/-- `decimalRound` (`src/decimal.ts`): round a decimal value to
`decimals` places with the `decimal.js` mode selected by `ROUNDING_MAP`.
`decimal.js` throws when the decimal-places argument is not a
non-negative integer; non-finite values are returned unchanged. -/
def decimalRound (value : JSNum) (decimals : JSNum) (method : RoundingMethod) :
    Except JSError JSNum :=
  if isDpArg decimals then
    let d := dpArgToNat decimals
    match value with
    | JSNum.fin q =>
        Except.ok (JSNum.fin ((roundingMapInt method (q * 10 ^ d) : ℚ) / 10 ^ d))
    | x => Except.ok x
  else Except.error (JSError.rangeError "[DecimalError] Invalid argument")

/-- `decimalRoundInteger` (`src/decimal.ts`): round to an integer. -/
def decimalRoundInteger (value : JSNum) (method : RoundingMethod) :
    Except JSError JSNum :=
  decimalRound value (JSNum.fin 0) method

/-- `roundToDecimals` (`src/utils.ts`): round a number to a number of
decimal places; non-finite input is returned unchanged, otherwise the
decimal result is narrowed back to a number. -/
def roundToDecimals (value : JSNum) (decimals : JSNum) (method : RoundingMethod) :
    Except JSError JSNum :=
  if !value.isFinite then Except.ok value
  else decimalToNumber <$> decimalRound value decimals method

/-- `applyRounding` (`src/utils.ts`): round a number to an integer;
non-finite input is returned unchanged. -/
def applyRounding (value : JSNum) (method : RoundingMethod) :
    Except JSError JSNum :=
  if !value.isFinite then Except.ok value
  else decimalToNumber <$> decimalRoundInteger value method

/-! ## Static tables (`src/constants.ts`) -/

/-- The four built-in unit systems. -/
inductive UnitSystem where
  | si | iec | jedec | french
deriving DecidableEq, Repr

/-- `PREFIX_EXPONENTS`: prefix letter to exponent tier (`"" → 0` in the
source table; unknown prefixes fall back to `0` at the lookup sites). -/
def pfxExponents (c : Char) : Option ℕ :=
  match c with
  | 'k' => some 1
  | 'm' => some 2
  | 'g' => some 3
  | 't' => some 4
  | 'p' => some 5
  | 'e' => some 6
  | 'z' => some 7
  | 'y' => some 8
  | _ => none

/-- `BINARY_POWERS` (exact: every entry is a power of two, hence an exact
double). -/
def BINARY_POWERS : List ℚ :=
  [1, 1024, 1048576, 1073741824, 1099511627776, 1125899906842624,
   1152921504606846976, 1180591620717411303424, 1208925819614629174706176]

/-- `DECIMAL_POWERS` (modelled as the exact powers of ten; see header). -/
def DECIMAL_POWERS : List ℚ :=
  [1, 1000, 1000000, 1000000000, 1000000000000, 1000000000000000,
   1000000000000000000, 1000000000000000000000, 1000000000000000000000000]

/-- `getDecimalPowers base` (`src/decimal.ts`): the cached exact powers
`base^0 .. base^8` used by the decimal engine. -/
def getDecimalPowers (base : ℕ) : List ℚ :=
  (List.range 9).map (fun e => ((base ^ e : ℕ) : ℚ))

/-- `MAX_EXPONENT`. -/
def MAX_EXPONENT : ℕ := 8

/-- Non-breaking space character (`NBSP`). -/
def NBSP : String := " "

/-- `UNITS`: short unit symbols per system, byte flavor. -/
def UNITS_bytes (s : UnitSystem) : List String :=
  match s with
  | UnitSystem.french => ["o", "ko", "Mo", "Go", "To", "Po", "Eo", "Zo", "Yo"]
  | UnitSystem.iec => ["B", "KiB", "MiB", "GiB", "TiB", "PiB", "EiB", "ZiB", "YiB"]
  | UnitSystem.jedec => ["B", "KB", "MB", "GB", "TB", "PB", "EB", "ZB", "YB"]
  | UnitSystem.si => ["B", "kB", "MB", "GB", "TB", "PB", "EB", "ZB", "YB"]

/-- `UNITS`: short unit symbols per system, bit flavor (`french` has no
bit table in the source object). -/
def UNITS_bits (s : UnitSystem) : Option (List String) :=
  match s with
  | UnitSystem.french => none
  | UnitSystem.iec =>
      some ["b", "Kib", "Mib", "Gib", "Tib", "Pib", "Eib", "Zib", "Yib"]
  | UnitSystem.jedec =>
      some ["b", "Kb", "Mb", "Gb", "Tb", "Pb", "Eb", "Zb", "Yb"]
  | UnitSystem.si =>
      some ["b", "kb", "Mb", "Gb", "Tb", "Pb", "Eb", "Zb", "Yb"]

/-- `LONG_FORMS`: long unit names per system, byte flavor. -/
def LONG_FORMS_bytes (s : UnitSystem) : List String :=
  match s with
  | UnitSystem.french =>
      ["Octets", "Kilooctets", "Megaoctets", "Gigaoctets", "Teraoctets",
       "Petaoctets", "Exaoctets", "Zettaoctets", "Yottaoctets"]
  | UnitSystem.iec =>
      ["Bytes", "Kibibytes", "Mebibytes", "Gibibytes", "Tebibytes",
       "Pebibytes", "Exbibytes", "Zebibytes", "Yobibytes"]
  | UnitSystem.jedec =>
      ["Bytes", "Kilobytes", "Megabytes", "Gigabytes", "Terabytes",
       "Petabytes", "Exabytes", "Zettabytes", "Yottabytes"]
  | UnitSystem.si =>
      ["Bytes", "Kilobytes", "Megabytes", "Gigabytes", "Terabytes",
       "Petabytes", "Exabytes", "Zettabytes", "Yottabytes"]

/-- `LONG_FORMS`: long unit names per system, bit flavor (`french` has no
bit table in the source object). -/
def LONG_FORMS_bits (s : UnitSystem) : Option (List String) :=
  match s with
  | UnitSystem.french => none
  | UnitSystem.iec =>
      some ["Bits", "Kibibits", "Mebibits", "Gibibits", "Tebibits",
            "Pebibits", "Exbibits", "Zebibits", "Yobibits"]
  | UnitSystem.jedec =>
      some ["Bits", "Kilobits", "Megabits", "Gigabits", "Terabits",
            "Petabits", "Exabits", "Zettabits", "Yottabits"]
  | UnitSystem.si =>
      some ["Bits", "Kilobits", "Megabits", "Gigabits", "Terabits",
            "Petabits", "Exabits", "Zettabits", "Yottabits"]

/-- One row of `UNIT_MAP`: base, bit flag, exponent tier. -/
structure UnitInfo where
  base : ℕ
  bits : Bool
  exponent : ℕ
deriving DecidableEq, Repr

/-- The `UNIT_MAP` rows whose key starts with `b`. -/
def unitMapRows_b : List (String × UnitInfo) :=
  [("b", ⟨1, false, 0⟩),
   ("bit", ⟨1, true, 0⟩),
   ("bits", ⟨1, true, 0⟩),
   ("byte", ⟨1, false, 0⟩),
   ("bytes", ⟨1, false, 0⟩)]

/-- The `UNIT_MAP` rows whose key starts with `e`. -/
def unitMapRows_e : List (String × UnitInfo) :=
  [("eb", ⟨1000, false, 6⟩),
   ("eib", ⟨1024, false, 6⟩),
   ("eo", ⟨1000, false, 6⟩),
   ("exabit", ⟨1000, true, 6⟩),
   ("exabits", ⟨1000, true, 6⟩),
   ("exabyte", ⟨1000, false, 6⟩),
   ("exabytes", ⟨1000, false, 6⟩),
   ("exbibit", ⟨1024, true, 6⟩),
   ("exbibits", ⟨1024, true, 6⟩),
   ("exbibyte", ⟨1024, false, 6⟩),
   ("exbibytes", ⟨1024, false, 6⟩)]

/-- The `UNIT_MAP` rows whose key starts with `g`. -/
def unitMapRows_g : List (String × UnitInfo) :=
  [("gb", ⟨1000, false, 3⟩),
   ("gib", ⟨1024, false, 3⟩),
   ("gibibit", ⟨1024, true, 3⟩),
   ("gibibits", ⟨1024, true, 3⟩),
   ("gibibyte", ⟨1024, false, 3⟩),
   ("gibibytes", ⟨1024, false, 3⟩),
   ("gigabit", ⟨1000, true, 3⟩),
   ("gigabits", ⟨1000, true, 3⟩),
   ("gigabyte", ⟨1000, false, 3⟩),
   ("gigabytes", ⟨1000, false, 3⟩),
   ("go", ⟨1000, false, 3⟩)]

/-- The `UNIT_MAP` rows whose key starts with `k`. -/
def unitMapRows_k : List (String × UnitInfo) :=
  [("kb", ⟨1000, false, 1⟩),
   ("kib", ⟨1024, false, 1⟩),
   ("kibibit", ⟨1024, true, 1⟩),
   ("kibibits", ⟨1024, true, 1⟩),
   ("kibibyte", ⟨1024, false, 1⟩),
   ("kibibytes", ⟨1024, false, 1⟩),
   ("kilobit", ⟨1000, true, 1⟩),
   ("kilobits", ⟨1000, true, 1⟩),
   ("kilobyte", ⟨1000, false, 1⟩),
   ("kilobytes", ⟨1000, false, 1⟩),
   ("ko", ⟨1000, false, 1⟩)]

/-- The `UNIT_MAP` rows whose key starts with `m`. -/
def unitMapRows_m : List (String × UnitInfo) :=
  [("mb", ⟨1000, false, 2⟩),
   ("mebibit", ⟨1024, true, 2⟩),
   ("mebibits", ⟨1024, true, 2⟩),
   ("mebibyte", ⟨1024, false, 2⟩),
   ("mebibytes", ⟨1024, false, 2⟩),
   ("megabit", ⟨1000, true, 2⟩),
   ("megabits", ⟨1000, true, 2⟩),
   ("megabyte", ⟨1000, false, 2⟩),
   ("megabytes", ⟨1000, false, 2⟩),
   ("mib", ⟨1024, false, 2⟩),
   ("mo", ⟨1000, false, 2⟩)]

/-- The `UNIT_MAP` rows whose key starts with `o`. -/
def unitMapRows_o : List (String × UnitInfo) :=
  [("o", ⟨1, false, 0⟩),
   ("octet", ⟨1, false, 0⟩),
   ("octets", ⟨1, false, 0⟩)]

/-- The `UNIT_MAP` rows whose key starts with `p`. -/
def unitMapRows_p : List (String × UnitInfo) :=
  [("pb", ⟨1000, false, 5⟩),
   ("pebibit", ⟨1024, true, 5⟩),
   ("pebibits", ⟨1024, true, 5⟩),
   ("pebibyte", ⟨1024, false, 5⟩),
   ("pebibytes", ⟨1024, false, 5⟩),
   ("petabit", ⟨1000, true, 5⟩),
   ("petabits", ⟨1000, true, 5⟩),
   ("petabyte", ⟨1000, false, 5⟩),
   ("petabytes", ⟨1000, false, 5⟩),
   ("pib", ⟨1024, false, 5⟩),
   ("po", ⟨1000, false, 5⟩)]

/-- The `UNIT_MAP` rows whose key starts with `t`. -/
def unitMapRows_t : List (String × UnitInfo) :=
  [("tb", ⟨1000, false, 4⟩),
   ("tebibit", ⟨1024, true, 4⟩),
   ("tebibits", ⟨1024, true, 4⟩),
   ("tebibyte", ⟨1024, false, 4⟩),
   ("tebibytes", ⟨1024, false, 4⟩),
   ("terabit", ⟨1000, true, 4⟩),
   ("terabits", ⟨1000, true, 4⟩),
   ("terabyte", ⟨1000, false, 4⟩),
   ("terabytes", ⟨1000, false, 4⟩),
   ("tib", ⟨1024, false, 4⟩),
   ("to", ⟨1000, false, 4⟩)]

/-- The `UNIT_MAP` rows whose key starts with `y`. -/
def unitMapRows_y : List (String × UnitInfo) :=
  [("yb", ⟨1000, false, 8⟩),
   ("yib", ⟨1024, false, 8⟩),
   ("yo", ⟨1000, false, 8⟩),
   ("yobibit", ⟨1024, true, 8⟩),
   ("yobibits", ⟨1024, true, 8⟩),
   ("yobibyte", ⟨1024, false, 8⟩),
   ("yobibytes", ⟨1024, false, 8⟩),
   ("yottabit", ⟨1000, true, 8⟩),
   ("yottabits", ⟨1000, true, 8⟩),
   ("yottabyte", ⟨1000, false, 8⟩),
   ("yottabytes", ⟨1000, false, 8⟩)]

/-- The `UNIT_MAP` rows whose key starts with `z`. -/
def unitMapRows_z : List (String × UnitInfo) :=
  [("zb", ⟨1000, false, 7⟩),
   ("zebibit", ⟨1024, true, 7⟩),
   ("zebibits", ⟨1024, true, 7⟩),
   ("zebibyte", ⟨1024, false, 7⟩),
   ("zebibytes", ⟨1024, false, 7⟩),
   ("zettabit", ⟨1000, true, 7⟩),
   ("zettabits", ⟨1000, true, 7⟩),
   ("zettabyte", ⟨1000, false, 7⟩),
   ("zettabytes", ⟨1000, false, 7⟩),
   ("zib", ⟨1024, false, 7⟩),
   ("zo", ⟨1000, false, 7⟩)]

/-- `UNIT_MAP` (`src/constants.ts`): lowercase unit token to its
configuration (the source object's keys, in the source's alphabetical
order, grouped here by first letter). -/
def UNIT_MAP : List (String × UnitInfo) :=
  unitMapRows_b ++ unitMapRows_e ++ unitMapRows_g ++ unitMapRows_k ++
    unitMapRows_m ++ unitMapRows_o ++ unitMapRows_p ++ unitMapRows_t ++
    unitMapRows_y ++ unitMapRows_z

/-- The rows that can match a key beginning with this character (keys
starting with any other letter cannot equal the token, so searching only
this group is the same lookup as searching all of `UNIT_MAP`; the
grouping keeps evaluation shallow). -/
def unitMapRowsFor (c : Char) : List (String × UnitInfo) :=
  match c with
  | 'b' => unitMapRows_b
  | 'e' => unitMapRows_e
  | 'g' => unitMapRows_g
  | 'k' => unitMapRows_k
  | 'm' => unitMapRows_m
  | 'o' => unitMapRows_o
  | 'p' => unitMapRows_p
  | 't' => unitMapRows_t
  | 'y' => unitMapRows_y
  | 'z' => unitMapRows_z
  | _ => []

/-- `UNIT_MAP[token]` lookup. -/
def unitMapLookup (s : String) : Option UnitInfo :=
  match s.data with
  | [] => none
  | c :: _ => ((unitMapRowsFor c).find? (fun p => p.1 == s)).map (fun p => p.2)

/-! ## The byte-string pattern (`BYTE_PATTERN` / `GLOBAL_BYTE_PATTERN`)

`BYTE_PATTERN` is the anchored, case-insensitive regular expression

  `^([+-]?\d+(?:[.,]\d+)?(?:e[+-]?\d+)?)\s*((?:([kmgtpezy])(i?))?(b(?:ytes?|its?)?|o(?:ctets?)?))?$`

It is embedded as a direct recognizer.  The implementation is greedy and
does not backtrack; for this particular pattern greedy matching agrees
with the regex engine's leftmost-greedy backtracking semantics, because
no optional group's content can also be consumed by what follows it
(units never start with a digit, a separator, or whitespace, and an `e`
taken by the exponent group is always followed by a sign or digit, which
no unit continues with). -/

/-- `String.prototype.trim` (whitespace at both ends; JS trims the same
ASCII whitespace on every input the claims exercise). -/
def jsTrim (s : String) : String :=
  String.mk
    (((s.data.dropWhile Char.isWhitespace).reverse.dropWhile
        Char.isWhitespace).reverse)

/-- `String.prototype.toLowerCase` (ASCII). -/
def toLowerStr (s : String) : String := String.mk (s.data.map Char.toLower)

/-- Does the string end with this character (`endsWith` with a one-char
argument)? -/
def lastCharIs (s : String) (c : Char) : Bool := s.data.getLast? == some c

/-- Split at the first `'.'`: the part before it and, when present, the
part after it (`split(".")` as used on fixed-point renders, which carry
at most one dot). -/
def splitAtFirstDot : List Char → List Char × Option (List Char)
  | [] => ([], none)
  | c :: r =>
      if c = '.' then ([], some r)
      else
        let p := splitAtFirstDot r
        (c :: p.1, p.2)

/-- Split a leading run of decimal digits. -/
def takeDigits (cs : List Char) : List Char × List Char :=
  (cs.takeWhile Char.isDigit, cs.dropWhile Char.isDigit)

/-- Consume the optional sign `[+-]?`. -/
def matchSign (cs : List Char) : List Char × List Char :=
  match cs with
  | c :: rest => if c = '+' ∨ c = '-' then ([c], rest) else ([], cs)
  | [] => ([], cs)

/-- Consume the optional fraction group `(?:[.,]\d+)?` (atomically: the
separator is consumed only together with at least one digit). -/
def matchFrac (cs : List Char) : List Char × List Char :=
  match cs with
  | c :: rest =>
      if c = '.' ∨ c = ',' then
        let (fd, r) := takeDigits rest
        if fd.isEmpty then ([], cs) else (c :: fd, r)
      else ([], cs)
  | [] => ([], cs)

/-- Consume the optional exponent group `(?:e[+-]?\d+)?` (atomically,
case-insensitively). -/
def matchExpPart (cs : List Char) : List Char × List Char :=
  match cs with
  | c :: rest =>
      if c = 'e' ∨ c = 'E' then
        match rest with
        | c2 :: rest2 =>
            if c2 = '+' ∨ c2 = '-' then
              let (ed, r) := takeDigits rest2
              if ed.isEmpty then ([], cs) else (c :: c2 :: ed, r)
            else
              let (ed, r) := takeDigits rest
              if ed.isEmpty then ([], cs) else (c :: ed, r)
        | [] => ([], cs)
      else ([], cs)
  | [] => ([], cs)

/-- Consume the numeric portion `[+-]?\d+(?:[.,]\d+)?(?:e[+-]?\d+)?`,
returning the consumed token and the rest, or `none` when no number
starts here. -/
def matchNumber (cs : List Char) : Option (List Char × List Char) :=
  let p1 := matchSign cs
  let (d1, cs2) := takeDigits p1.2
  if d1.isEmpty then none
  else
    let p3 := matchFrac cs2
    let p4 := matchExpPart p3.2
    some (p1.1 ++ d1 ++ p3.1 ++ p4.1, p4.2)

/-- Does the whole list spell the `b`-word suffix `(?:ytes?|its?)?`
(case-insensitively)? -/
def byteWordOk (cs : List Char) : Bool :=
  let l := cs.map Char.toLower
  l == [] || l == ['y', 't', 'e'] || l == ['y', 't', 'e', 's'] ||
    l == ['i', 't'] || l == ['i', 't', 's']

/-- Does the whole list spell the `o`-word suffix `(?:ctets?)?`
(case-insensitively)? -/
def octetWordOk (cs : List Char) : Bool :=
  let l := cs.map Char.toLower
  l == [] || l == ['c', 't', 'e', 't'] || l == ['c', 't', 'e', 't', 's']

/-- Does the whole list match `b(?:ytes?|its?)?|o(?:ctets?)?`
(case-insensitively)? -/
def unitCoreWhole (cs : List Char) : Bool :=
  match cs with
  | c :: rest =>
      if c.toLower = 'b' then byteWordOk rest
      else if c.toLower = 'o' then octetWordOk rest
      else false
  | [] => false

/-- Is this a magnitude-prefix letter `[kmgtpezy]` (case-insensitively)? -/
def isPfxChar (c : Char) : Bool := (pfxExponents c.toLower).isSome

/-- Does the whole list match the unit group
`(?:([kmgtpezy])(i?))?(b(?:ytes?|its?)?|o(?:ctets?)?)`? -/
def unitMatchesWhole (cs : List Char) : Bool :=
  match cs with
  | c :: rest =>
      if isPfxChar c then
        match rest with
        | c2 :: rest2 =>
            if c2.toLower = 'i' then unitCoreWhole rest2 else unitCoreWhole rest
        | [] => false
      else unitCoreWhole cs
  | [] => false

/-- Match `BYTE_PATTERN` against a whole (already trimmed) string,
returning the numeric capture and the optional unit capture. -/
def matchBytePattern (s : String) : Option (String × Option String) :=
  match matchNumber s.data with
  | none => none
  | some (tok, rest) =>
      let rest2 := rest.dropWhile Char.isWhitespace
      if rest2.isEmpty then some (String.mk tok, none)
      else if unitMatchesWhole rest2 then
        some (String.mk tok, some (String.mk rest2))
      else none

/-! ## Numeric literal interpretation (`toDecimal` on strings) -/

/-- Value of a digit run. -/
def digitsToNat (ds : List Char) : ℕ :=
  ds.foldl (fun n c => 10 * n + (c.toNat - '0'.toNat)) 0

/-- Interpret a decimal literal `[+-]?\d+(\.\d+)?([eE][+-]?\d+)?` as an
exact rational (`new Decimal(string)` is exact: `decimal.js` stores every
parsed literal these claims exercise exactly at precision 80).  Returns
`none` for a malformed literal, where the `decimal.js` constructor
throws. -/
def parseDecimalLit (cs : List Char) : Option ℚ :=
  let p1 : ℚ × List Char :=
    match cs with
    | '+' :: r => (1, r)
    | '-' :: r => (-1, r)
    | _ => (1, cs)
  let (d1, cs2) := takeDigits p1.2
  if d1.isEmpty then none
  else
    let intPart : ℚ := digitsToNat d1
    let p3 : Option (ℚ × List Char) :=
      match cs2 with
      | '.' :: r =>
          let (fd, r2) := takeDigits r
          if fd.isEmpty then none
          else some ((digitsToNat fd : ℚ) / 10 ^ fd.length, r2)
      | _ => some (0, cs2)
    match p3 with
    | none => none
    | some (fracPart, cs3) =>
        let p4 : Option (ℤ × List Char) :=
          match cs3 with
          | c :: rest =>
              if c = 'e' ∨ c = 'E' then
                match rest with
                | c2 :: rest2 =>
                    if c2 = '+' ∨ c2 = '-' then
                      let (ed, r) := takeDigits rest2
                      if ed.isEmpty then none
                      else some
                        (if c2 = '-' then -(digitsToNat ed : ℤ)
                         else (digitsToNat ed : ℤ), r)
                    else
                      let (ed, r) := takeDigits rest
                      if ed.isEmpty then none else some ((digitsToNat ed : ℤ), r)
                | [] => none
              else some (0, cs3)
          | [] => some (0, cs3)
        match p4 with
        | none => none
        | some (ex, cs4) =>
            if cs4.isEmpty then
              some (p1.1 * (intPart + fracPart) *
                (if 0 ≤ ex then ((pow10 ex.toNat : ℕ) : ℚ)
                 else 1 / ((pow10 (-ex).toNat : ℕ) : ℚ)))
            else none

/-- Replace the first `','` with `'.'` (JS `String.prototype.replace`
with a string pattern replaces only the first occurrence). -/
def replaceFirstComma : List Char → List Char
  | [] => []
  | c :: r => if c = ',' then '.' :: r else c :: replaceFirstComma r

/-- `parseNormalizedNumber` (`src/utils.ts`): interpret the normalized
numeric string as a decimal and narrow it to a number; a constructor
throw is caught and becomes `NaN`. -/
def parseNormalizedNumber (s : String) : JSNum :=
  match parseDecimalLit s.data with
  | some q => decimalToNumber (JSNum.fin q)
  | none => JSNum.nan

/-- `parseLocaleNumber` (`src/utils.ts`), no-locale path (no claim
supplies a locale): trim, treat the first comma as a decimal point, and
parse. -/
def parseLocaleNumber (s : String) : JSNum :=
  parseNormalizedNumber (String.mk (replaceFirstComma (jsTrim s).data))

/-! ## Parser (`src/parse.ts`) -/

/-- `ParseOptions` (`locale` is outside the model, see header). -/
structure ParseOptions where
  bits : Option Bool := none
  iec : Option Bool := none
  strict : Option Bool := none
deriving Repr

/-- `ParseOptions` merged over `DEFAULT_PARSE_OPTIONS`
(`{bits: false, iec: true, strict: false}`). -/
structure ResolvedParseOptions where
  bits : Bool
  iec : Bool
  strict : Bool
deriving Repr

/-- `{...DEFAULT_PARSE_OPTIONS, ...options}`. -/
def mergeParseOptions (o : ParseOptions) : ResolvedParseOptions :=
  ⟨o.bits.getD false, o.iec.getD true, o.strict.getD false⟩

/-- Result of `parse`: the returned number plus whether `console.warn`
was called on the way (used only by the BigInt path). -/
structure ParseOutcome where
  warned : Bool
  value : JSNum
deriving DecidableEq, Repr

/-- The polymorphic input accepted by `parse`. -/
inductive ParseInput where
  | num : JSNum → ParseInput
  | big : ℤ → ParseInput
  | str : String → ParseInput

/-- `Number.MAX_SAFE_INTEGER`. -/
def MAX_SAFE_INTEGER : ℤ := 9007199254740991

/-- `parseNumber` (`src/parse.ts`): numeric passthrough; non-finite input
throws in strict mode and is `NaN` otherwise. -/
def parseNumber (input : JSNum) (strict : Bool) : Except JSError ParseOutcome :=
  if !input.isFinite then
    if strict then Except.error (JSError.typeError "Expected finite number")
    else Except.ok ⟨false, JSNum.nan⟩
  else Except.ok ⟨false, input⟩

/-- `parseBigInt` (`src/parse.ts`): out-of-safe-range BigInt throws a
`RangeError` in strict mode and warns otherwise; the value is narrowed
with `Number(input)`. -/
def parseBigInt (input : ℤ) (strict : Bool) : Except JSError ParseOutcome :=
  if MAX_SAFE_INTEGER < input ∨ input < -MAX_SAFE_INTEGER then
    if strict then
      Except.error (JSError.rangeError
        "hsize: BigInt value exceeds safe integer range, precision would be lost")
    else Except.ok ⟨true, jsNumOfInt input⟩
  else Except.ok ⟨false, jsNumOfInt input⟩

/-- `handleInvalid` (`src/parse.ts`). -/
def handleInvalid (strict : Bool) (message : String) : Except JSError ParseOutcome :=
  if strict then Except.error (JSError.typeError message)
  else Except.ok ⟨false, JSNum.nan⟩

/-- `JEDEC_STYLE_PATTERN.test` (`/^[KMGTPEZY]B$/`, case-sensitive). -/
def jedecStyleTest (s : String) : Bool :=
  match s.data with
  | [c1, c2] => "KMGTPEZY".data.contains c1 && c2 == 'B'
  | _ => false

/-- `isJedecStyleUnit` (`src/parse.ts`). -/
def isJedecStyleUnit (trimmedUnit : String) : Bool :=
  jedecStyleTest trimmedUnit && !trimmedUnit.data.contains 'i'

/-- `hasUpperPrefix` in the source (`UPPERCASE_PREFIX_PATTERN.test`,
`/^[KMGTPEZY]/`). -/
def hasUpperPfx (unit : String) : Bool :=
  match unit.data with
  | c :: _ => "KMGTPEZY".data.contains c
  | [] => false

/-- `getExponentFromPrefix` in the source
(`PREFIX_EXPONENTS[prefix] ?? 0`; `charAt(0)` of an empty string yields
the empty string, whose table entry is `0`). -/
def getExponentFromPfx (c : Option Char) : ℕ :=
  match c with
  | some ch => (pfxExponents ch).getD 0
  | none => 0

/-- `calculateJedecBytes` (`src/parse.ts`): an uppercase JEDEC-style unit
is always resolved against base 1024 (the parse options are not
consulted). -/
def calculateJedecBytes (value : JSNum) (trimmedUnit : String) : JSNum :=
  let pfx := trimmedUnit.data.head?.map Char.toLower
  let exponent := getExponentFromPfx pfx
  decimalToNumber (value.mul (JSNum.fin ((getDecimalPowers 1024).getD exponent 0)))

/-- `calculateFromParts` (`src/parse.ts`): fallback for unit tokens not
in `UNIT_MAP`. -/
def calculateFromParts (value : JSNum) (unitStr : String)
    (opts : ResolvedParseOptions) : JSNum :=
  let hasI := unitStr.data.contains 'i'
  let base := if hasI || opts.iec then 1024 else 1000
  let stripped := unitStr.data.filter fun c =>
    !(c.toLower == 'i' || c.toLower == 'b' || c.toLower == 'o')
  let exponent := getExponentFromPfx (stripped.head?.map Char.toLower)
  decimalToNumber (value.mul (JSNum.fin ((getDecimalPowers base).getD exponent 0)))

/-- `calculateBytes` (`src/parse.ts`): resolve a unit token and multiply
the value onto it, dividing by 8 when the unit is a bit unit or
`opts.bits` is set. -/
def calculateBytes (value : JSNum) (unitStr : String)
    (opts : ResolvedParseOptions) : JSNum :=
  let trimmedUnit := jsTrim unitStr
  let normalizedUnit := toLowerStr trimmedUnit
  if isJedecStyleUnit trimmedUnit && hasUpperPfx trimmedUnit then
    calculateJedecBytes value trimmedUnit
  else
    match unitMapLookup normalizedUnit with
    | some info =>
        let rawValue :=
          value.mul (JSNum.fin ((getDecimalPowers info.base).getD info.exponent 0))
        let isBitUnit := info.bits || opts.bits
        decimalToNumber (if isBitUnit then rawValue.div (JSNum.fin 8) else rawValue)
    | none => calculateFromParts value normalizedUnit opts

/-- `processMatch` (`src/parse.ts`): interpret the two regex captures. -/
def processMatch (valueStr : String) (rawUnit : Option String)
    (opts : ResolvedParseOptions) : ParseOutcome :=
  let unitStr := rawUnit.getD "b"
  let value := parseLocaleNumber valueStr
  ⟨false, calculateBytes value unitStr opts⟩

/-- `parseString` (`src/parse.ts`). -/
def parseString (input : String) (options : ParseOptions) :
    Except JSError ParseOutcome :=
  let opts := mergeParseOptions options
  let trimmed := jsTrim input
  if trimmed = "" then handleInvalid opts.strict "Empty string"
  else
    match matchBytePattern trimmed with
    | none => handleInvalid opts.strict ("Invalid byte string: " ++ trimmed)
    | some (valueStr, rawUnit) => Except.ok (processMatch valueStr rawUnit opts)

/-- `parse` (`src/parse.ts`): the public entry point. -/
def parse (input : ParseInput) (options : ParseOptions) :
    Except JSError ParseOutcome :=
  match input with
  | ParseInput.num x => parseNumber x (options.strict.getD false)
  | ParseInput.big n => parseBigInt n (options.strict.getD false)
  | ParseInput.str s => parseString s options

/-! ## Formatter (`src/format.ts`, number rendering from `src/utils.ts`) -/

/-- `ByteValue`: `format` accepts a number or a BigInt. -/
inductive ByteValue where
  | num : JSNum → ByteValue
  | big : ℤ → ByteValue
deriving DecidableEq, Repr

/-- `toDecimal` on a byte value (numbers and BigInts convert exactly). -/
def toDec : ByteValue → JSNum
  | ByteValue.num x => x
  | ByteValue.big n => JSNum.fin n

/-- The four output shapes selected by `options.output`. -/
inductive OutputKind where
  | stringOut | arrayOut | objectOut | exponentOut
deriving DecidableEq, Repr

/-- `FormatOptions` (the fields the claims exercise; `locale` selects the
`Intl` path and is outside the model, see header). -/
structure FormatOptions where
  bits : Option Bool := none
  decimals : Option JSNum := none
  exponent : Option JSNum := none
  fixedWidth : Option JSNum := none
  longForm : Option Bool := none
  longForms : Option (List String) := none
  maximumFractionDigits : Option JSNum := none
  minimumFractionDigits : Option JSNum := none
  nonBreakingSpace : Option Bool := none
  output : Option OutputKind := none
  pad : Option Bool := none
  roundingMethod : Option RoundingMethod := none
  signed : Option Bool := none
  space : Option Bool := none
  spacer : Option String := none
  system : Option UnitSystem := none
  unit : Option String := none
  thousandsSeparator : Option String := none

/-- Options after `{...DEFAULT_FORMAT_OPTIONS, ...options}`. -/
structure Opts where
  bits : Bool
  decimals : JSNum
  longForm : Bool
  nonBreakingSpace : Bool
  output : OutputKind
  pad : Bool
  roundingMethod : RoundingMethod
  signed : Bool
  space : Bool
  system : UnitSystem
  unit : Option String
  exponent : Option JSNum
  fixedWidth : Option JSNum
  spacer : Option String
  longForms : Option (List String)
  maximumFractionDigits : Option JSNum
  minimumFractionDigits : Option JSNum
  thousandsSeparator : Option String

/-- Merge over `DEFAULT_FORMAT_OPTIONS`. -/
def mergeFormatOptions (o : FormatOptions) : Opts where
  bits := o.bits.getD false
  decimals := o.decimals.getD (JSNum.fin 2)
  longForm := o.longForm.getD false
  nonBreakingSpace := o.nonBreakingSpace.getD false
  output := o.output.getD OutputKind.stringOut
  pad := o.pad.getD false
  roundingMethod := o.roundingMethod.getD RoundingMethod.round
  signed := o.signed.getD false
  space := o.space.getD true
  system := o.system.getD UnitSystem.iec
  unit := o.unit
  exponent := o.exponent
  fixedWidth := o.fixedWidth
  spacer := o.spacer
  longForms := o.longForms
  maximumFractionDigits := o.maximumFractionDigits
  minimumFractionDigits := o.minimumFractionDigits
  thousandsSeparator := o.thousandsSeparator

/-- First statement of `validateOptions` (`src/format.ts`):
`opts.decimals < 0 || !Number.isFinite(opts.decimals)` throws. -/
def validateDecimals (o : FormatOptions) : Except JSError Unit :=
  match o.decimals with
  | some d =>
      if d.lt (JSNum.fin 0) || !d.isFinite then
        Except.error (JSError.typeError "decimals must be a non-negative finite number")
      else Except.ok ()
  | none => Except.ok ()

/-- Second statement of `validateOptions`:
`!Number.isInteger(opts.exponent) || exponent < 0 || exponent > 8` throws. -/
def validateExponentOpt (o : FormatOptions) : Except JSError Unit :=
  match o.exponent with
  | some x =>
      if !x.isInteger || x.lt (JSNum.fin 0) || (JSNum.fin 8).lt x then
        Except.error (JSError.typeError "exponent must be an integer between 0 and 8")
      else Except.ok ()
  | none => Except.ok ()

/-- Third statement of `validateOptions`: `opts.fixedWidth < 0` throws. -/
def validateFixedWidth (o : FormatOptions) : Except JSError Unit :=
  match o.fixedWidth with
  | some w =>
      if w.lt (JSNum.fin 0) then
        Except.error (JSError.typeError "fixedWidth must be non-negative")
      else Except.ok ()
  | none => Except.ok ()

/-- `validateOptions` (`src/format.ts`): the three checks in source
order. -/
def validateOptions (o : FormatOptions) : Except JSError Unit := do
  validateDecimals o
  validateExponentOpt o
  validateFixedWidth o

/-- JS truthiness of an optional string option (the empty string is
falsy, which `if (opts.unit)` relies on). -/
def truthyStr : Option String → Option String
  | some "" => none
  | x => x

/-- `validateInput` (`src/format.ts`). -/
def validateInput (bytes : ByteValue) : Except JSError Unit :=
  match bytes with
  | ByteValue.num x =>
      if !x.isFinite then
        Except.error (JSError.typeError "Expected a finite number or bigint")
      else Except.ok ()
  | ByteValue.big _ => Except.ok ()

/-- `calculateExponent` (`src/utils.ts`, decimal version): largest tier
`e ∈ [1,8]` with `base^e ≤ |bytes|`, else `0`; zero short-circuits. -/
def calculateExponent (bytes : ByteValue) (base : ℕ) : ℕ :=
  if toDec bytes == JSNum.fin 0 then 0
  else
    let absBytes := (toDec bytes).abs
    let powers := getDecimalPowers base
    match (List.range' 1 8).reverse.find?
        (fun e => absBytes.ge (JSNum.fin (powers.getD e 0))) with
    | some e => e
    | none => 0

/-- `getExponentFromUnit` (`src/format.ts`): exponent of a forced unit
string from its leading prefix letter (`0` when there is none). -/
def getExponentFromUnit (unit : String) : ℕ :=
  match (toLowerStr unit).data.head? with
  | some c => if isPfxChar c then (pfxExponents c).getD 0 else 0
  | none => 0

/-- `clampExponent` (`src/format.ts`). -/
def clampExponent (e : ℤ) : ℤ := max 0 (min (MAX_EXPONENT : ℤ) e)

/-- Floor a decimal to an integer (`decimalRoundInteger(value, "floor")`
as used by `divide`). -/
def decFloorInt : JSNum → JSNum
  | JSNum.fin q => JSNum.fin ⌊q⌋
  | x => x

/-- `divide` (`src/utils.ts`, decimal version).  Both power tables hold
integers, so flooring a numeric divisor in the BigInt branch is the
identity here. -/
def divide (value : ByteValue) (divisor : ℚ) (isBigInt : Bool) : JSNum :=
  if divisor = 0 then JSNum.nan
  else if !isBigInt then
    decimalToNumber ((toDec value).div (JSNum.fin divisor))
  else
    let left := match value with
      | ByteValue.big n => JSNum.fin n
      | ByteValue.num x => decFloorInt x
    decimalToNumber (left.div (JSNum.fin divisor))

/-- `computeValue` (`src/format.ts`).  The number power table and the
BigInt power table hold the same values in the model (see header on
`DECIMAL_POWERS`). -/
def computeValue (absBytes : ByteValue) (exponent : ℤ) (isBigInt : Bool)
    (system : UnitSystem) : JSNum :=
  let powers := if system = UnitSystem.si then DECIMAL_POWERS else BINARY_POWERS
  divide absBytes (powers.getD exponent.toNat 0) isBigInt

/-- `adjustForBits` (`src/format.ts`): multiply by 8 and carry into the
next tier when the result reaches `base` and a higher tier exists. -/
def adjustForBits (value : JSNum) (exponent : ℤ) (base : ℕ) : JSNum × ℤ :=
  let adjustedValue := value.mul (JSNum.fin 8)
  if adjustedValue.ge (JSNum.fin base) && decide (exponent < (MAX_EXPONENT : ℤ)) then
    (adjustedValue.div (JSNum.fin base), exponent + 1)
  else (adjustedValue, exponent)

/-- `getUnitArray` (`src/format.ts`): `UNITS[system]?.[unitType] ??
UNITS.iec.bytes` — the french system has no bit table, so it falls back
to the IEC byte symbols. -/
def getUnitArray (system : UnitSystem) (bits : Bool) : List String :=
  (if bits then UNITS_bits system else some (UNITS_bytes system)).getD
    (UNITS_bytes UnitSystem.iec)

/-- `getLongFormUnit` (`src/format.ts`): pick the long name, lowercase
it, and drop a trailing `s` exactly when the magnitude of the (signed,
pre-rounding) display value strictly equals `1`. -/
def getLongFormUnit (system : UnitSystem) (bits : Bool) (exponent : ℤ)
    (customForms : Option (List String)) (value : JSNum) : String :=
  let longFormSystem :=
    (if bits then LONG_FORMS_bits system else some (LONG_FORMS_bytes system)).getD
      (LONG_FORMS_bytes UnitSystem.iec)
  let unit0 := (customForms.bind fun l => l.get? exponent.toNat).getD
    (longFormSystem.getD exponent.toNat "")
  let unit1 := toLowerStr unit0
  if value.abs == JSNum.fin 1 && lastCharIs unit1 's' then unit1.dropRight 1
  else unit1

/-- `getUnit` (`src/format.ts`). -/
def getUnit (opts : Opts) (exponent : ℤ) (value : JSNum) : String :=
  match truthyStr opts.unit with
  | some u => u
  | none =>
      if opts.longForm then
        getLongFormUnit opts.system opts.bits exponent opts.longForms value
      else (getUnitArray opts.system opts.bits).getD exponent.toNat ""

/-- `getSpacer` (`src/format.ts`). -/
def getSpacer (opts : Opts) : String :=
  match opts.spacer with
  | some sp => sp
  | none => if opts.space = false then "" else if opts.nonBreakingSpace then NBSP else " "

/-- `InitialState` (`src/format.ts`); the decimal `calculateExponent`
ignores `logBase`, which is therefore dropped. -/
structure InitialState where
  absBytes : ByteValue
  base : ℕ
  isBigInt : Bool
  isNegative : Bool

/-- `getInitialState` (`src/format.ts`); `-0` normalization is the
identity in the model (no signed zero). -/
def getInitialState (bytes : ByteValue) (system : UnitSystem) :
    Except JSError InitialState := do
  validateInput bytes
  let isNegative := match bytes with
    | ByteValue.big n => decide (n < 0)
    | ByteValue.num x => x.lt (JSNum.fin 0)
  let absBytes :=
    if isNegative then
      match bytes with
      | ByteValue.big n => ByteValue.big (-n)
      | ByteValue.num x => ByteValue.num x.neg
    else bytes
  let base := if system = UnitSystem.si then 1000 else 1024
  pure ⟨absBytes, base, (match bytes with | ByteValue.big _ => true | _ => false),
        isNegative⟩

/-- Conversion of a (validated) forced `exponent` option to an integer;
only integers in `[0,8]` survive `validateOptions`. -/
def exponentArgToInt : JSNum → ℤ
  | JSNum.fin q => ⌊q⌋
  | _ => 0

/-- `getRawExponent` (`src/format.ts`): forced unit, else forced
exponent, else automatic tier search. -/
def getRawExponent (init : InitialState) (opts : Opts) : ℤ :=
  match truthyStr opts.unit with
  | some u => (getExponentFromUnit u : ℤ)
  | none =>
      match opts.exponent with
      | some e => exponentArgToInt e
      | none => (calculateExponent init.absBytes init.base : ℤ)

/-- `computeExponentAndValue` (`src/format.ts`). -/
def computeExponentAndValue (init : InitialState) (opts : Opts) : ℤ × JSNum :=
  let rawExp := getRawExponent init opts
  let exponent := clampExponent rawExp
  let value := computeValue init.absBytes exponent init.isBigInt opts.system
  let adjusted :=
    if opts.bits then adjustForBits value exponent init.base else (value, exponent)
  (adjusted.2, if init.isNegative then adjusted.1.neg else adjusted.1)

/-- `FormatState` (`src/format.ts`). -/
structure FormatState where
  bytes : ByteValue
  value : JSNum
  exponent : ℤ
  unit : String
  isBigInt : Bool
  isNegative : Bool
deriving DecidableEq, Repr

/-- `buildState` (`src/format.ts`). -/
def buildState (bytes : ByteValue) (opts : Opts) : Except JSError FormatState := do
  let init ← getInitialState bytes opts.system
  let ev := computeExponentAndValue init opts
  let unit := getUnit opts ev.1 ev.2
  pure ⟨bytes, ev.2, ev.1, unit, init.isBigInt, init.isNegative⟩

/-! ## Number rendering (`src/utils.ts`, no-locale path) -/

/-- Render a non-negative scaled integer with `d` fixed decimals. -/
def renderFixedNat (n : ℕ) (d : ℕ) : String :=
  if d = 0 then toString n
  else
    let ip := n / 10 ^ d
    let fp := n % 10 ^ d
    let fs := toString fp
    toString ip ++ "." ++ String.mk (List.replicate (d - fs.length) '0') ++ fs

/-- `Decimal.prototype.toFixed` with the clone's rounding setting
`ROUND_HALF_UP` (ties away from zero).  A value of `-0.00x` prints with a
leading `-` in `decimal.js`; the model has no signed zero, which no claim
reaches. -/
def decToFixed (x : JSNum) (d : ℕ) : String :=
  match x with
  | JSNum.nan => "NaN"
  | JSNum.inf => "Infinity"
  | JSNum.neginf => "-Infinity"
  | JSNum.fin q =>
      let n : ℤ := (if q < 0 then (-1 : ℤ) else 1) * ⌊|q| * 10 ^ d + 1 / 2⌋
      if n < 0 then "-" ++ renderFixedNat n.natAbs d else renderFixedNat n.toNat d

/-- `result.replace(TRAILING_ZEROS_PATTERN, "")` with pattern `/\.?0+$/`:
drop a trailing run of zeros and at most one dot immediately before it. -/
def trimTrailingZerosAndDot (s : String) : String :=
  if lastCharIs s '0' then
    let t := String.mk ((s.data.reverse.dropWhile (fun c => c == '0')).reverse)
    if lastCharIs t '.' then t.dropRight 1 else t
  else s

/-- `padToMinDecimals` (`src/utils.ts`). -/
def padToMinDecimals (trimmed : String) (minDecimals : ℕ) : String :=
  let parts := splitAtFirstDot trimmed.data
  let fracPart := parts.2.getD []
  if minDecimals ≤ fracPart.length then trimmed
  else
    String.mk parts.1 ++ "." ++ String.mk fracPart ++
      String.mk (List.replicate (minDecimals - fracPart.length) '0')

/-- `trimDecimals` (`src/utils.ts`). -/
def trimDecimals (result : String) (minDecimals maxDecimals : JSNum)
    (pad : Bool) : String :=
  if pad || minDecimals.ge maxDecimals then result
  else
    let trimmed := trimTrailingZerosAndDot result
    if minDecimals == JSNum.fin 0 then trimmed
    else padToMinDecimals trimmed (dpArgToNat minDecimals)

/-- `THOUSANDS_SEPARATOR_PATTERN` insertion on the integer part:
a separator goes before every position from which a multiple of three
digits runs to the end, provided the previous character is also a word
character (so no separator lands after a leading `-`). -/
def insertThousandsSeps (s : String) (sep : String) : String :=
  let cs := s.data
  let n := cs.length
  let isWordChar : Char → Bool := fun c => c.isAlphanum || c == '_'
  String.mk <| List.flatten <| (List.range n).map fun i =>
    let sepHere :=
      0 < i ∧ 3 ≤ n - i ∧ (n - i) % 3 = 0 ∧
        ((cs.drop i).all Char.isDigit) = true ∧
        (isWordChar ((cs.getD (i - 1) ' '))) = true
    (if sepHere then sep.data else []) ++ [cs.getD i ' ']

/-- `addThousandsSeparator` (`src/utils.ts`). -/
def addThousandsSeparator (result : String) (sep : Option String) : String :=
  match sep with
  | none => result
  | some "" => result
  | some sp =>
      let parts := splitAtFirstDot result.data
      match parts.2 with
      | none => insertThousandsSeps (String.mk parts.1) sp
      | some frac =>
          insertThousandsSeps (String.mk parts.1) sp ++ "." ++ String.mk frac

/-- `String(value)` fallback (reached only when `toFixed` throws on an
invalid decimal-places argument; no claim reaches it).  Doubles are
dyadic, so the exact expansion terminates within the searched range. -/
def jsNumToString (x : JSNum) : String :=
  match x with
  | JSNum.nan => "NaN"
  | JSNum.inf => "Infinity"
  | JSNum.neginf => "-Infinity"
  | JSNum.fin q =>
      match (List.range 1100).find? (fun k => (q * 10 ^ k).den = 1) with
      | some k => decToFixed (JSNum.fin q) k
      | none => decToFixed (JSNum.fin q) 0

/-- The named options accepted by `formatNumber`. -/
structure FormatNumberOptions where
  decimals : JSNum := JSNum.fin 2
  minimumFractionDigits : Option JSNum := none
  maximumFractionDigits : Option JSNum := none
  pad : Bool := false
  thousandsSeparator : Option String := none

/-- `formatWithoutLocale` (`src/utils.ts`): fixed-point render, trim,
thousands separator.  A `toFixed` throw (non-integer digit count) is
caught and replaced by `String(value)`. -/
def formatWithoutLocale (value : JSNum) (options : FormatNumberOptions) : String :=
  let maxDecimals := options.maximumFractionDigits.getD options.decimals
  let minDecimals := options.minimumFractionDigits.getD
    (if options.pad then maxDecimals else JSNum.fin 0)
  let result :=
    if isDpArg maxDecimals then decToFixed value (dpArgToNat maxDecimals)
    else jsNumToString value
  let result := trimDecimals result minDecimals maxDecimals options.pad
  addThousandsSeparator result options.thousandsSeparator

/-- `formatNumber` (`src/utils.ts`); every claim runs without a locale,
so only the no-locale branch is live (see header). -/
def formatNumber (value : JSNum) (options : FormatNumberOptions) : String :=
  formatWithoutLocale value options

/-- `ToIntegerOrInfinity`-style truncation used by `padStart` (validated
non-negative widths; only finite widths are representable here). -/
def padTargetToNat : JSNum → ℕ
  | JSNum.fin q => if q ≤ 0 then 0 else (⌊q⌋).toNat
  | _ => 0

/-- `formatAsString` (`src/format.ts`). -/
def formatAsString (state : FormatState) (opts : Opts) : String :=
  let formattedValue := formatNumber state.value
    { decimals := opts.decimals
      minimumFractionDigits := opts.minimumFractionDigits
      maximumFractionDigits := opts.maximumFractionDigits
      pad := opts.pad
      thousandsSeparator := opts.thousandsSeparator }
  let formattedValue :=
    if opts.signed && !state.isNegative && !(state.value == JSNum.fin 0) then
      "+" ++ formattedValue
    else formattedValue
  let spacer := getSpacer opts
  let result := formattedValue ++ spacer ++ state.unit
  match opts.fixedWidth with
  | some w =>
      if (JSNum.fin result.length).lt w then
        let target := padTargetToNat w
        String.mk (List.replicate (target - result.length) ' ') ++ result
      else result
  | none => result

/-- The value `format` returns, by output shape. -/
inductive FormatResult where
  | str : String → FormatResult
  | arr : JSNum → String → FormatResult
  | obj : (bytes : JSNum) → (value : JSNum) → (unit : String) →
      (exponent : ℤ) → FormatResult
  | exp : ℤ → FormatResult
deriving DecidableEq, Repr

/-- `formatAsArray` (`src/format.ts`). -/
def formatAsArray (state : FormatState) (opts : Opts) :
    Except JSError FormatResult := do
  let formattedValue ← roundToDecimals state.value opts.decimals opts.roundingMethod
  pure (FormatResult.arr formattedValue state.unit)

/-- `formatAsObject` (`src/format.ts`). -/
def formatAsObject (state : FormatState) (opts : Opts) :
    Except JSError FormatResult := do
  let formattedValue ← roundToDecimals state.value opts.decimals opts.roundingMethod
  let bytesNum := match state.bytes with
    | ByteValue.big n => jsNumOfInt n
    | ByteValue.num x => x
  pure (FormatResult.obj bytesNum formattedValue state.unit state.exponent)

/-- `formatByOutput` (`src/format.ts`). -/
def formatByOutput (state : FormatState) (opts : Opts) :
    Except JSError FormatResult :=
  match opts.output with
  | OutputKind.exponentOut => Except.ok (FormatResult.exp state.exponent)
  | OutputKind.arrayOut => formatAsArray state opts
  | OutputKind.objectOut => formatAsObject state opts
  | OutputKind.stringOut => Except.ok (FormatResult.str (formatAsString state opts))

/-- `format` (`src/format.ts`): the public entry point. -/
def format (bytes : ByteValue) (options : FormatOptions) :
    Except JSError FormatResult := do
  validateOptions options
  let opts := mergeFormatOptions options
  let state ← buildState bytes opts
  formatByOutput state opts

/-- The string produced by `format` when it returns a string (the
default output shape). -/
def formatStr (bytes : ByteValue) (options : FormatOptions) : Option String :=
  match format bytes options with
  | Except.ok (FormatResult.str s) => some s
  | _ => none

/-! ## Extraction scanner (`src/extract.ts`)

`GLOBAL_BYTE_PATTERN` is `BYTE_PATTERN` without the anchors, with a
*required* unit group, scanned globally.  The scanner below replicates
the JS `exec` loop: it looks for the leftmost position where the pattern
matches (greedily), records the match, and resumes immediately after
it. -/

/-- Greedy non-anchored match of the word suffix after `b`/`o`:
alternation order `ytes? | its?` (resp. `ctets?`), with the optional
trailing `s` taken greedily.  Returns consumed and rest. -/
def unitWordSuffix (core : Char) (cs : List Char) : List Char × List Char :=
  let l := cs.map Char.toLower
  if core = 'b' then
    if l.take 3 = ['y', 't', 'e'] then
      if l.get? 3 = some 's' then (cs.take 4, cs.drop 4) else (cs.take 3, cs.drop 3)
    else if l.take 2 = ['i', 't'] then
      if l.get? 2 = some 's' then (cs.take 3, cs.drop 3) else (cs.take 2, cs.drop 2)
    else ([], cs)
  else
    if l.take 4 = ['c', 't', 'e', 't'] then
      if l.get? 4 = some 's' then (cs.take 5, cs.drop 5) else (cs.take 4, cs.drop 4)
    else ([], cs)

/-- Greedy non-anchored match of `b(?:ytes?|its?)?|o(?:ctets?)?`,
returning consumed and rest, or `none`. -/
def unitCoreTok (cs : List Char) : Option (List Char × List Char) :=
  match cs with
  | c :: rest =>
      if c.toLower = 'b' ∨ c.toLower = 'o' then
        let suf := unitWordSuffix c.toLower rest
        some (c :: suf.1, suf.2)
      else none
  | [] => none

/-- Greedy non-anchored match of the full unit group
`(?:([kmgtpezy])(i?))?(b(?:ytes?|its?)?|o(?:ctets?)?)`.  (Taking the
prefix or the `i` can never prevent the core from matching, because
prefix letters and `i` are not core letters.) -/
def matchUnitTok (cs : List Char) : Option (List Char × List Char) :=
  match cs with
  | c :: rest =>
      if isPfxChar c then
        match rest with
        | c2 :: rest2 =>
            if c2.toLower = 'i' then
              (unitCoreTok rest2).map fun p => (c :: c2 :: p.1, p.2)
            else (unitCoreTok rest).map fun p => (c :: p.1, p.2)
        | [] => none
      else unitCoreTok cs
  | [] => none

/-- Try `GLOBAL_BYTE_PATTERN` at this exact position: number, optional
whitespace, required unit.  Returns the full consumed match, the numeric
capture and the unit capture. -/
def matchGlobalAt (cs : List Char) :
    Option (List Char × List Char × List Char) :=
  match matchNumber cs with
  | none => none
  | some (numTok, rest) =>
      let sp := rest.takeWhile Char.isWhitespace
      let rest2 := rest.dropWhile Char.isWhitespace
      match matchUnitTok rest2 with
      | none => none
      | some (unitTok, _) => some (numTok ++ sp ++ unitTok, numTok, unitTok)

/-- `ExtractedByte` (`src/types.ts`): one match of the global sweep. -/
structure ExtractedByte where
  value : JSNum
  unit : String
  bytes : JSNum
  input : String
  start : ℕ
  stop : ℕ
deriving DecidableEq, Repr

/-- `parse(input)` called with default options from the scanner; with
`strict` unset it never throws. -/
def parseNonStrict (s : String) : JSNum :=
  match parse (ParseInput.str s) {} with
  | Except.ok o => o.value
  | Except.error _ => JSNum.nan

/-- `processExtractMatch` (`src/extract.ts`): `Number.parseFloat` on a
token that already matches the numeric pattern equals the token's exact
value narrowed to a double. -/
def processExtractMatch (input valueStr rawUnit : String) (start stop : ℕ) :
    ExtractedByte :=
  let value := parseNormalizedNumber (String.mk (replaceFirstComma valueStr.data))
  let bytes := parseNonStrict input
  ⟨value, rawUnit, bytes, input, start, stop⟩

/-- The `exec` loop of `extract`: scan for the leftmost match from the
current position, record it, resume after it.  `fuel` bounds the scan
(instantiated with more than the text length); the zero-length guard is
unreachable because a match always contains at least one digit. -/
def extractAux : ℕ → List Char → ℕ → List ExtractedByte
  | 0, _, _ => []
  | _ + 1, [], _ => []
  | fuel + 1, c :: rest, pos =>
      match matchGlobalAt (c :: rest) with
      | some (full, valueTok, unitTok) =>
          let len := full.length
          if 0 < len then
            processExtractMatch (String.mk full) (String.mk valueTok)
                (String.mk unitTok) pos (pos + len) ::
              extractAux fuel ((c :: rest).drop len) (pos + len)
          else extractAux fuel rest (pos + 1)
      | none => extractAux fuel rest (pos + 1)

/-- `extract` (`src/extract.ts`). -/
def extract (text : String) : List ExtractedByte :=
  extractAux (text.data.length + 1) text.data 0

/-- The slice of a string between two character offsets (what
`text.slice(start, end)` yields for ASCII text). -/
def sliceStr (s : String) (a b : ℕ) : String :=
  String.mk ((s.data.drop a).take (b - a))

/-! ## Round-trip composition used by claim C1 -/

/-- `parse(format(bytes, {system}))` with default parse options, for a
finite numeric byte count (`none` when either side fails). -/
def parseOfFormat (sys : UnitSystem) (b : ℚ) : Option JSNum :=
  match formatStr (ByteValue.num (JSNum.fin b)) { system := some sys } with
  | some s =>
      match parse (ParseInput.str s) {} with
      | Except.ok o => some o.value
      | Except.error _ => none
  | none => none

/-- The exponent a format result carries, when it carries one (the bare
`"exponent"` output and the `exponent` field of the `"object"` output). -/
def expOf : FormatResult → Option ℤ
  | FormatResult.exp e => some e
  | FormatResult.obj _ _ _ e => some e
  | _ => none

/-- A concrete `FormatState`: the state `buildState` produces for the input
`2048` with `longForm` enabled and otherwise default options. -/
def stC8 : FormatState :=
  ⟨ByteValue.num (JSNum.fin 2048), JSNum.fin 2, 1, "kibibytes", false, false⟩

/-- The single match the scanner finds in `"Size: 1 KiB"`. -/
def mC9 : ExtractedByte :=
  ⟨JSNum.fin 1, "KiB", JSNum.fin 1024, "1 KiB", 6, 11⟩

/-! ## Helper lemmas -/

/-- `fastNatPow` computes ordinary exponentiation (given enough fuel). -/
theorem fastNatPow_correct :
    ∀ (f b e : ℕ), e < 2 ^ f → fastNatPow f b e = b ^ e := by
  intro f
  induction f with
  | zero =>
      intro b e he
      have h0 : e = 0 := by simpa using he
      subst h0; rfl
  | succ f ih =>
      intro b e he
      by_cases h0 : e = 0
      · subst h0; simp [fastNatPow]
      · have hpow : (2 : ℕ) ^ (f + 1) = 2 ^ f * 2 := pow_succ 2 f
        have hlt : e / 2 < 2 ^ f := by omega
        have hrec := ih (b * b) (e / 2) hlt
        have hbb : (b * b) ^ (e / 2) = b ^ (2 * (e / 2)) := by
          rw [show b * b = b ^ 2 by ring, ← pow_mul]
        simp only [fastNatPow, if_neg h0]
        rw [hrec, hbb]
        rcases Nat.mod_two_eq_zero_or_one e with hm | hm
        · rw [if_neg (by omega : ¬ e % 2 = 1), one_mul,
            show 2 * (e / 2) = e by omega]
        · rw [if_pos hm, ← pow_succ', show 2 * (e / 2) + 1 = e by omega]

/-- `pow10` computes `10 ^ e`. -/
theorem pow10_eq (e : ℕ) : pow10 e = 10 ^ e :=
  fastNatPow_correct (e + 1) 10 e
    (Nat.lt_of_lt_of_le (Nat.lt_two_pow e)
      (Nat.pow_le_pow_right (by norm_num) (Nat.le_succ e)))


theorem doubleOverflowBound_eq :
    doubleOverflowBound = ((2 ^ 1024 - 2 ^ 970 : ℕ) : ℚ) := by
  unfold doubleOverflowBound
  rw [fastNatPow_correct 11 2 1024 (by norm_num),
    fastNatPow_correct 10 2 970 (by norm_num)]

/-- Narrowing a decimal that is comfortably inside the double range is
the identity. -/
theorem decimalToNumber_fin_of_small (q : ℚ) (h : |q| ≤ 2 ^ 920) :
    decimalToNumber (JSNum.fin q) = JSNum.fin q := by
  have hb : (2 : ℚ) ^ 920 < doubleOverflowBound := by
    rw [doubleOverflowBound_eq]
    have hle : (2 : ℕ) ^ 970 ≤ 2 ^ 1024 :=
      Nat.pow_le_pow_right (by norm_num) (by norm_num)
    rw [Nat.cast_sub hle]
    push_cast
    have h2 : (2 : ℚ) ^ 970 ≤ 2 ^ 1023 :=
      pow_le_pow_right₀ (by norm_num) (by norm_num)
    have h3 : (2 : ℚ) ^ 920 < 2 ^ 1023 := by
      have := pow_lt_pow_right₀ (by norm_num : (1:ℚ) < 2) (by norm_num : 920 < 1023)
      exact this
    have h4 : (2 : ℚ) ^ 1023 + 2 ^ 1023 = 2 ^ 1024 := by
      rw [← two_mul, ← pow_succ']
    linarith
  have h1 : ¬ doubleOverflowBound ≤ q :=
    not_le.mpr (lt_of_le_of_lt (le_trans (le_abs_self q) h) hb)
  have h2 : ¬ q ≤ -doubleOverflowBound := by
    have hnl := neg_abs_le q
    have : -doubleOverflowBound < q := by
      have := le_trans h hb.le
      linarith [neg_abs_le q]
    exact not_le.mpr this
  simp only [decimalToNumber, h1, h2, if_false]

theorem abs_mul_le_pow920 (v m : ℚ) (hv : |v| ≤ 2 ^ 900) (hm : |m| ≤ 2 ^ 20) :
    |v * m| ≤ 2 ^ 920 := by
  rw [abs_mul]
  calc |v| * |m| ≤ 2 ^ 900 * 2 ^ 20 :=
        mul_le_mul hv hm (abs_nonneg m) (by positivity)
    _ = 2 ^ 920 := by rw [← pow_add]

theorem abs_mul_div_le_pow920 (v m d : ℚ) (hv : |v| ≤ 2 ^ 900)
    (hm : |m| ≤ 2 ^ 20) (hd : 1 ≤ d) : |v * m / d| ≤ 2 ^ 920 := by
  have h0 : (0 : ℚ) < d := lt_of_lt_of_le zero_lt_one hd
  rw [abs_div, abs_of_pos h0]
  exact le_trans (div_le_self (abs_nonneg _) hd) (abs_mul_le_pow920 v m hv hm)

theorem format_error_of_validate (b : ByteValue) (o : FormatOptions) (err : JSError)
    (h : validateOptions o = Except.error err) : format b o = Except.error err := by
  unfold format
  rw [h]
  rfl

theorem validateOptions_error_of_decimals (o : FormatOptions) (err : JSError)
    (h : validateDecimals o = Except.error err) :
    validateOptions o = Except.error err := by
  unfold validateOptions
  rw [h]
  rfl

theorem validateOptions_error_of_exponent (o : FormatOptions) (err : JSError)
    (hd : validateDecimals o = Except.ok ())
    (h : validateExponentOpt o = Except.error err) :
    validateOptions o = Except.error err := by
  unfold validateOptions
  rw [hd]
  show validateExponentOpt o >>= _ = _
  rw [h]
  rfl

theorem validateOptions_error_of_fixedWidth (o : FormatOptions) (err : JSError)
    (hd : validateDecimals o = Except.ok ())
    (he : validateExponentOpt o = Except.ok ())
    (h : validateFixedWidth o = Except.error err) :
    validateOptions o = Except.error err := by
  unfold validateOptions
  rw [hd]
  show validateExponentOpt o >>= _ = _
  rw [he]
  show validateFixedWidth o = _
  exact h

theorem validateDecimals_cases (o : FormatOptions) :
    validateDecimals o = Except.ok () ∨
      ∃ s, validateDecimals o = Except.error (JSError.typeError s) := by
  unfold validateDecimals
  rcases o.decimals with _ | d
  · exact Or.inl rfl
  · dsimp only
    split
    · exact Or.inr ⟨_, rfl⟩
    · exact Or.inl rfl

theorem validateExponentOpt_cases (o : FormatOptions) :
    validateExponentOpt o = Except.ok () ∨
      ∃ s, validateExponentOpt o = Except.error (JSError.typeError s) := by
  unfold validateExponentOpt
  rcases o.exponent with _ | x
  · exact Or.inl rfl
  · dsimp only
    split
    · exact Or.inr ⟨_, rfl⟩
    · exact Or.inl rfl

theorem clampExponent_mem (x : ℤ) : 0 ≤ clampExponent x ∧ clampExponent x ≤ 8 := by
  unfold clampExponent MAX_EXPONENT
  omega

theorem computeExponentAndValue_bounds (init : InitialState) (opts : Opts) :
    0 ≤ (computeExponentAndValue init opts).1 ∧
      (computeExponentAndValue init opts).1 ≤ 8 := by
  unfold computeExponentAndValue
  have h := clampExponent_mem (getRawExponent init opts)
  dsimp only
  by_cases hb : opts.bits
  · simp only [hb, if_true]
    unfold adjustForBits
    dsimp only
    split
    · next hcond =>
        rw [Bool.and_eq_true] at hcond
        have h8 : (clampExponent (getRawExponent init opts)) < 8 :=
          of_decide_eq_true hcond.2
        constructor <;> omega
    · exact h
  · simp only [hb, if_false]
    exact h

theorem buildState_exponent_bounds (bytes : ByteValue) (opts : Opts)
    (st : FormatState) (h : buildState bytes opts = Except.ok st) :
    0 ≤ st.exponent ∧ st.exponent ≤ 8 := by
  unfold buildState at h
  cases hinit : getInitialState bytes opts.system with
  | error e => rw [hinit] at h; exact Except.noConfusion h
  | ok init =>
      rw [hinit] at h
      replace h : Except.ok (⟨bytes, (computeExponentAndValue init opts).2,
          (computeExponentAndValue init opts).1,
          getUnit opts (computeExponentAndValue init opts).1
            (computeExponentAndValue init opts).2,
          init.isBigInt, init.isNegative⟩ : FormatState) = Except.ok st := h
      injection h with h2
      rw [← h2]
      exact computeExponentAndValue_bounds init opts

theorem getLongFormUnit_plural_iff (sys : UnitSystem) (bits : Bool) (e : ℤ)
    (h0 : 0 ≤ e) (h8 : e ≤ 8) (v : JSNum) :
    (lastCharIs (getLongFormUnit sys bits e none v) 's' = false ↔
      v.abs = JSNum.fin 1) := by
  have he : e = 0 ∨ e = 1 ∨ e = 2 ∨ e = 3 ∨ e = 4 ∨ e = 5 ∨ e = 6 ∨ e = 7 ∨
      e = 8 := by omega
  rcases he with h|h|h|h|h|h|h|h|h <;> subst h <;> cases sys <;> cases bits <;>
    cases hv : v.abs == JSNum.fin 1 <;>
    simp only [getLongFormUnit, hv, Bool.false_and, Bool.true_and,
      if_false, if_true] <;>
    first
      | (simp only [ne_of_beq_false hv, iff_false]
         with_unfolding_all decide)
      | (simp only [eq_of_beq hv, iff_true]
         with_unfolding_all decide)

/-! ### Structural lemmas for the global-pattern scanner -/

/-- `takeDigits` splits its input: consumed and rest concatenate back. -/
theorem takeDigits_append (cs : List Char) :
    (takeDigits cs).1 ++ (takeDigits cs).2 = cs := by
  simp only [takeDigits]
  exact List.takeWhile_append_dropWhile _ _

/-- `matchSign` splits its input. -/
theorem matchSign_append (cs : List Char) :
    (matchSign cs).1 ++ (matchSign cs).2 = cs := by
  cases cs with
  | nil => rfl
  | cons c rest =>
      simp only [matchSign]
      split <;> rfl

/-- `matchFrac` splits its input. -/
theorem matchFrac_append (cs : List Char) :
    (matchFrac cs).1 ++ (matchFrac cs).2 = cs := by
  cases cs with
  | nil => rfl
  | cons c rest =>
      simp only [matchFrac]
      split
      · cases hd : takeDigits rest with
        | mk fd r =>
            dsimp only
            split
            · rfl
            · have h := takeDigits_append rest
              rw [hd] at h
              simp only [List.cons_append, List.cons.injEq, true_and]
              exact h
      · rfl

/-- `matchExpPart` splits its input. -/
theorem matchExpPart_append (cs : List Char) :
    (matchExpPart cs).1 ++ (matchExpPart cs).2 = cs := by
  cases cs with
  | nil => rfl
  | cons c rest =>
      simp only [matchExpPart]
      split
      · cases rest with
        | nil => rfl
        | cons c2 rest2 =>
            dsimp only
            split
            · cases hd : takeDigits rest2 with
              | mk ed r =>
                  dsimp only
                  split
                  · rfl
                  · have h := takeDigits_append rest2
                    rw [hd] at h
                    simp only [List.cons_append, List.cons.injEq, true_and]
                    exact h
            · cases hd : takeDigits (c2 :: rest2) with
              | mk ed r =>
                  dsimp only
                  split
                  · rfl
                  · have h := takeDigits_append (c2 :: rest2)
                    rw [hd] at h
                    simp only [List.cons_append, List.cons.injEq, true_and]
                    exact h
      · rfl

/-- A successful `matchNumber` splits its input. -/
theorem matchNumber_append (cs : List Char) (p : List Char × List Char)
    (h : matchNumber cs = some p) : p.1 ++ p.2 = cs := by
  simp only [matchNumber] at h
  by_cases hd : (takeDigits (matchSign cs).2).1.isEmpty
  · simp only [hd, if_true] at h
    exact Option.noConfusion h
  · simp only [hd, if_false] at h
    cases p with
    | mk tok rest =>
        injection h with h
        injection h with h1 h2
        subst h1
        subst h2
        simp only [List.append_assoc]
        rw [matchExpPart_append, matchFrac_append, takeDigits_append,
          matchSign_append]

/-- `unitWordSuffix` splits its input. -/
theorem unitWordSuffix_append (c : Char) (cs : List Char) :
    (unitWordSuffix c cs).1 ++ (unitWordSuffix c cs).2 = cs := by
  simp only [unitWordSuffix]
  split
  · split
    · split <;> exact List.take_append_drop _ _
    · split
      · split <;> exact List.take_append_drop _ _
      · rfl
  · split
    · split <;> exact List.take_append_drop _ _
    · rfl

/-- A successful `unitCoreTok` splits its input. -/
theorem unitCoreTok_append (cs : List Char) (p : List Char × List Char)
    (h : unitCoreTok cs = some p) : p.1 ++ p.2 = cs := by
  cases cs with
  | nil => exact Option.noConfusion h
  | cons c rest =>
      simp only [unitCoreTok] at h
      by_cases hc : c.toLower = 'b' ∨ c.toLower = 'o'
      · simp only [hc, if_true] at h
        injection h with h
        subst h
        simp only [List.cons_append, List.cons.injEq, true_and]
        exact unitWordSuffix_append _ _
      · simp only [hc, if_false] at h
        exact Option.noConfusion h

/-- A successful `matchUnitTok` splits its input. -/
theorem matchUnitTok_append (cs : List Char) (p : List Char × List Char)
    (h : matchUnitTok cs = some p) : p.1 ++ p.2 = cs := by
  cases cs with
  | nil => exact Option.noConfusion h
  | cons c rest =>
      simp only [matchUnitTok] at h
      by_cases hp : isPfxChar c
      · simp only [hp, if_true] at h
        cases rest with
        | nil => exact Option.noConfusion h
        | cons c2 rest2 =>
            dsimp only at h
            by_cases hi : c2.toLower = 'i'
            · simp only [hi, if_true] at h
              cases hc : unitCoreTok rest2 with
              | none => rw [hc] at h; exact Option.noConfusion h
              | some q =>
                  rw [hc] at h
                  injection h with h
                  subst h
                  have h2 := unitCoreTok_append rest2 q hc
                  simp only [Option.map_some, List.cons_append,
                    List.cons.injEq, true_and]
                  exact h2
            · simp only [hi, if_false] at h
              cases hc : unitCoreTok (c2 :: rest2) with
              | none => rw [hc] at h; exact Option.noConfusion h
              | some q =>
                  rw [hc] at h
                  injection h with h
                  subst h
                  have h2 := unitCoreTok_append (c2 :: rest2) q hc
                  simp only [Option.map_some, List.cons_append,
                    List.cons.injEq, true_and]
                  exact h2
      · simp only [hp, if_false] at h
        exact unitCoreTok_append _ _ h

/-- The full token a successful `matchGlobalAt` returns starts the
input: the scanner only ever consumes text that is really there. -/
theorem matchGlobalAt_prefix_eq (cs full valueTok unitTok : List Char)
    (h : matchGlobalAt cs = some (full, valueTok, unitTok)) :
    ∃ r, full ++ r = cs := by
  simp only [matchGlobalAt] at h
  cases hn : matchNumber cs with
  | none => rw [hn] at h; exact Option.noConfusion h
  | some p =>
      rw [hn] at h
      cases p with
      | mk numTok rest =>
          dsimp only at h
          cases hu : matchUnitTok (rest.dropWhile Char.isWhitespace) with
          | none => rw [hu] at h; exact Option.noConfusion h
          | some q =>
              rw [hu] at h
              injection h with h
              injection h with h1 h2
              subst h1
              have hnum := matchNumber_append cs _ hn
              have hws := List.takeWhile_append_dropWhile
                Char.isWhitespace rest
              have hunit := matchUnitTok_append _ q hu
              refine ⟨q.2, ?_⟩
              simp only [List.append_assoc]
              rw [hunit, hws]
              exact hnum
/-- Invariant of the scan loop: every recorded match starts at or after
the current position, has a nonempty span that ends within the remaining
text, and carries as `input` exactly the corresponding slice; and
successive matches do not overlap. -/
theorem extractAux_invariant :
    ∀ (fuel : ℕ) (cs : List Char) (pos : ℕ),
      (∀ m ∈ extractAux fuel cs pos,
        pos ≤ m.start ∧ m.start < m.stop ∧ m.stop ≤ pos + cs.length ∧
        m.input.data = (cs.drop (m.start - pos)).take (m.stop - m.start)) ∧
      List.Chain' (fun a b => a.stop ≤ b.start) (extractAux fuel cs pos) := by
  intro fuel
  induction fuel with
  | zero =>
      intro cs pos
      constructor
      · intro m hm
        simp only [extractAux, List.not_mem_nil] at hm
      · simp only [extractAux, List.chain'_nil]
  | succ fuel ih =>
      intro cs pos
      cases cs with
      | nil =>
          constructor
          · intro m hm
            simp only [extractAux, List.not_mem_nil] at hm
          · simp only [extractAux, List.chain'_nil]
      | cons c rest =>
          cases hm : matchGlobalAt (c :: rest) with
          | none =>
              have hstep : extractAux (fuel + 1) (c :: rest) pos =
                  extractAux fuel rest (pos + 1) := by
                simp only [extractAux, hm]
              rw [hstep]
              obtain ⟨ihA, ihC⟩ := ih rest (pos + 1)
              refine ⟨?_, ihC⟩
              intro m hmem
              obtain ⟨h1, h2, h3, h4⟩ := ihA m hmem
              refine ⟨by omega, h2, by simp only [List.length_cons]; omega, ?_⟩
              have hs : m.start - pos = (m.start - (pos + 1)) + 1 := by omega
              rw [hs, List.drop_succ_cons]
              exact h4
          | some trip =>
              obtain ⟨full, valueTok, unitTok⟩ := trip
              obtain ⟨r0, hr0⟩ :=
                matchGlobalAt_prefix_eq (c :: rest) full valueTok unitTok hm
              have hlenle : full.length ≤ (c :: rest).length := by
                rw [← hr0, List.length_append]
                omega
              by_cases hlen : 0 < full.length
              · have hstep : extractAux (fuel + 1) (c :: rest) pos =
                    processExtractMatch (String.mk full) (String.mk valueTok)
                        (String.mk unitTok) pos (pos + full.length) ::
                      extractAux fuel ((c :: rest).drop full.length)
                        (pos + full.length) := by
                  simp only [extractAux, hm, hlen, if_true]
                rw [hstep]
                obtain ⟨ihA, ihC⟩ :=
                  ih ((c :: rest).drop full.length) (pos + full.length)
                have hdroplen : ((c :: rest).drop full.length).length =
                    (c :: rest).length - full.length := List.length_drop _ _
                constructor
                · intro m hmem
                  rcases List.mem_cons.mp hmem with heq | htail
                  · subst heq
                    have hstart : (processExtractMatch (String.mk full)
                        (String.mk valueTok) (String.mk unitTok) pos
                        (pos + full.length)).start = pos := rfl
                    have hstop : (processExtractMatch (String.mk full)
                        (String.mk valueTok) (String.mk unitTok) pos
                        (pos + full.length)).stop = pos + full.length := rfl
                    have hinput : (processExtractMatch (String.mk full)
                        (String.mk valueTok) (String.mk unitTok) pos
                        (pos + full.length)).input.data = full := rfl
                    simp only [hstart, hstop, hinput]
                    refine ⟨le_refl _, by omega, by omega, ?_⟩
                    have h1 : pos - pos = 0 := by omega
                    have h2 : pos + full.length - pos = full.length := by omega
                    rw [h1, h2, List.drop_zero, ← hr0]
                    exact (List.take_left full r0).symm
                  · obtain ⟨h1, h2, h3, h4⟩ := ihA m htail
                    refine ⟨by omega, h2, by omega, ?_⟩
                    rw [h4, List.drop_drop]
                    congr 2
                    omega
                · refine List.chain'_cons'.mpr ⟨?_, ihC⟩
                  intro b hb
                  have hbmem : b ∈ extractAux fuel
                      ((c :: rest).drop full.length) (pos + full.length) :=
                    List.mem_of_mem_head? hb
                  obtain ⟨h1, _, _, _⟩ := ihA b hbmem
                  exact h1
              · have hstep : extractAux (fuel + 1) (c :: rest) pos =
                    extractAux fuel rest (pos + 1) := by
                  simp only [extractAux, hm, hlen, if_false]
                rw [hstep]
                obtain ⟨ihA, ihC⟩ := ih rest (pos + 1)
                refine ⟨?_, ihC⟩
                intro m hmem
                obtain ⟨h1, h2, h3, h4⟩ := ihA m hmem
                refine ⟨by omega, h2, by simp only [List.length_cons]; omega, ?_⟩
                have hs : m.start - pos = (m.start - (pos + 1)) + 1 := by omega
                rw [hs, List.drop_succ_cons]
                exact h4

/-! ## Claims -/


set_option maxRecDepth 2000

/-- **C1, counterexample.** The round-trip fails as universally stated:
for the `si` system at its tier `1000^2 = 1_000_000`, `format` renders
`"1 MB"`, and `parse` reads the uppercase no-`i` unit back through the
JEDEC branch as `1024^2 = 1_048_576`; for the `french` system at the
tier `1024` used by its formatter, `format` renders `"1 ko"`, and
`parse` reads `"ko"` as `1000`. -/
theorem C1_roundtrip_counterexample :
    parseOfFormat UnitSystem.si 1000000 = some (JSNum.fin 1048576) ∧
      (1048576 : ℚ) ≠ 1000000 ∧
      parseOfFormat UnitSystem.french 1024 = some (JSNum.fin 1000) ∧
      (1000 : ℚ) ≠ 1024 := by
  refine ⟨by with_unfolding_all rfl, by norm_num, by with_unfolding_all rfl,
    by norm_num⟩

/-- **C1, amended.** `parse(format(bytes, {system})) = bytes` holds for
every tier-aligned byte count of the `iec` and `jedec` systems
(`1024^e`, `e ∈ [0,8]`), and for the `si` system only at tiers `0` and
`1` (`1` and `1000`); for the `french` system only the trivial tier `0`
round-trips. -/
theorem C1_roundtrip_amended :
    (∀ e : Fin 9,
        parseOfFormat UnitSystem.iec ((1024 : ℚ) ^ (e : ℕ)) =
          some (JSNum.fin ((1024 : ℚ) ^ (e : ℕ)))) ∧
      (∀ e : Fin 9,
        parseOfFormat UnitSystem.jedec ((1024 : ℚ) ^ (e : ℕ)) =
          some (JSNum.fin ((1024 : ℚ) ^ (e : ℕ)))) ∧
      parseOfFormat UnitSystem.si 1 = some (JSNum.fin 1) ∧
      parseOfFormat UnitSystem.si 1000 = some (JSNum.fin 1000) ∧
      parseOfFormat UnitSystem.french 1 = some (JSNum.fin 1) := by
  refine ⟨fun e => ?_, fun e => ?_, by with_unfolding_all rfl,
    by with_unfolding_all rfl, by with_unfolding_all rfl⟩ <;>
    fin_cases e <;> with_unfolding_all rfl

/-- **C2.** `parse("1 GB")` with the default options is `1073741824` and
`parse("1 GiB")` is `1073741824` for either value of `iec` — but
`parse("1 GB", {iec:false})` is also `1073741824`, not `10^9`: an
uppercase JEDEC-style unit is routed to `calculateJedecBytes`, which
multiplies by a hard-coded power of `1024` and never consults the `iec`
option, contradicting `parse`'s own documentation
(`parse("1 KB", { iec: false }); // 1000`). -/
theorem C2_jedec_ignores_iec_option :
    parse (ParseInput.str "1 GB") {} =
        Except.ok ⟨false, JSNum.fin 1073741824⟩ ∧
      parse (ParseInput.str "1 GB") { iec := some false } =
        Except.ok ⟨false, JSNum.fin 1073741824⟩ ∧
      (1073741824 : ℚ) ≠ 1000000000 ∧
      parse (ParseInput.str "1 GiB") { iec := some false } =
        Except.ok ⟨false, JSNum.fin 1073741824⟩ ∧
      parse (ParseInput.str "1 GiB") { iec := some true } =
        Except.ok ⟨false, JSNum.fin 1073741824⟩ := by
  refine ⟨by with_unfolding_all rfl, by with_unfolding_all rfl, by norm_num,
    by with_unfolding_all rfl, by with_unfolding_all rfl⟩

/-- **C3.** Numeric overflow is not detected: `"1e309"` parses to a
finite `decimal.js` value whose narrowing to a double is `Infinity`, and
that `Infinity` flows through `calculateBytes` unflagged — `parse`
returns `Infinity` instead of `NaN` in non-strict mode, and returns
`Infinity` instead of throwing in strict mode (contradicting the
repository's own tests, which expect `NaN` and a `TypeError`). -/
theorem C3_overflow_returns_infinity :
    parse (ParseInput.str "1e309 B") {} = Except.ok ⟨false, JSNum.inf⟩ ∧
      parse (ParseInput.str "1e309 B") { strict := some true } =
        Except.ok ⟨false, JSNum.inf⟩ ∧
      parse (ParseInput.str "-1e309 B") {} =
        Except.ok ⟨false, JSNum.neginf⟩ := by
  refine ⟨by with_unfolding_all rfl, by with_unfolding_all rfl,
    by with_unfolding_all rfl⟩

/-- **C4, counterexample.** `"Kib"` does not behave as a bit unit: the
unit token is lowercased before the `UNIT_MAP` lookup, `"kib"` is the
kibi*byte* row (`bits := false`), so `parse("8 Kib")` is `8192` — not
the `8 · 1024 / 8 = 1024` the claim requires (the repository's own test
suite pins this: "parses kibibits (currently treats as kibibytes)"). -/
theorem C4_bit_suffix_counterexample :
    parse (ParseInput.str "8 Kib") {} = Except.ok ⟨false, JSNum.fin 8192⟩ ∧
      (8192 : ℚ) ≠ 8 * 1024 / 8 := by
  refine ⟨by with_unfolding_all rfl, by norm_num⟩

/-- **C4, amended.** Only the explicit bit-word tokens set the bit flag:
`"bit"`/`"bits"` and the long `…bit(s)` names carry `bits := true` in
`UNIT_MAP` and the parsed value is `v · base^e / 8`; a short token with a
trailing lowercase `b` (`"Kib"`, `"Mb"`) is lowercased into the byte row
of `UNIT_MAP` and yields `v · base^e` *undivided*; the `bits` parse
option forces the division for any unit.  (The byte-magnitude bound
keeps the narrowing to a double exact.) -/
theorem C4_bit_units_amended :
    (∀ v : ℚ, |v| ≤ 2 ^ 900 →
      calculateBytes (JSNum.fin v) "bit" (mergeParseOptions {}) =
          JSNum.fin (v * 1 / 8) ∧
        calculateBytes (JSNum.fin v) "bits" (mergeParseOptions {}) =
          JSNum.fin (v * 1 / 8) ∧
        calculateBytes (JSNum.fin v) "kilobits" (mergeParseOptions {}) =
          JSNum.fin (v * 1000 / 8) ∧
        calculateBytes (JSNum.fin v) "kibibits" (mergeParseOptions {}) =
          JSNum.fin (v * 1024 / 8) ∧
        calculateBytes (JSNum.fin v) "Kib" (mergeParseOptions {}) =
          JSNum.fin (v * 1024) ∧
        calculateBytes (JSNum.fin v) "Mb" (mergeParseOptions {}) =
          JSNum.fin (v * 1000000) ∧
        calculateBytes (JSNum.fin v) "KiB"
            (mergeParseOptions { bits := some true }) =
          JSNum.fin (v * 1024 / 8)) ∧
      parse (ParseInput.str "8 bits") {} = Except.ok ⟨false, JSNum.fin 1⟩ ∧
      parse (ParseInput.str "8 bit") {} = Except.ok ⟨false, JSNum.fin 1⟩ := by
  refine ⟨fun v hv => ?_, by with_unfolding_all rfl, by with_unfolding_all rfl⟩
  have h20 : |(1 : ℚ)| ≤ 2 ^ 20 := by rw [abs_one]; norm_num
  have h1000 : |(1000 : ℚ)| ≤ 2 ^ 20 := by
    rw [abs_of_pos (by norm_num)]; norm_num
  have h1024 : |(1024 : ℚ)| ≤ 2 ^ 20 := by
    rw [abs_of_pos (by norm_num)]; norm_num
  have h1e6 : |(1000000 : ℚ)| ≤ 2 ^ 20 := by
    rw [abs_of_pos (by norm_num)]; norm_num
  have h8 : (1 : ℚ) ≤ 8 := by norm_num
  refine ⟨?_, ?_, ?_, ?_, ?_, ?_, ?_⟩
  · rw [show calculateBytes (JSNum.fin v) "bit" (mergeParseOptions {}) =
        decimalToNumber (JSNum.fin (v * 1 / 8)) from by with_unfolding_all rfl]
    exact decimalToNumber_fin_of_small _ (abs_mul_div_le_pow920 v 1 8 hv h20 h8)
  · rw [show calculateBytes (JSNum.fin v) "bits" (mergeParseOptions {}) =
        decimalToNumber (JSNum.fin (v * 1 / 8)) from by with_unfolding_all rfl]
    exact decimalToNumber_fin_of_small _ (abs_mul_div_le_pow920 v 1 8 hv h20 h8)
  · rw [show calculateBytes (JSNum.fin v) "kilobits" (mergeParseOptions {}) =
        decimalToNumber (JSNum.fin (v * 1000 / 8)) from by with_unfolding_all rfl]
    exact decimalToNumber_fin_of_small _ (abs_mul_div_le_pow920 v 1000 8 hv h1000 h8)
  · rw [show calculateBytes (JSNum.fin v) "kibibits" (mergeParseOptions {}) =
        decimalToNumber (JSNum.fin (v * 1024 / 8)) from by with_unfolding_all rfl]
    exact decimalToNumber_fin_of_small _ (abs_mul_div_le_pow920 v 1024 8 hv h1024 h8)
  · rw [show calculateBytes (JSNum.fin v) "Kib" (mergeParseOptions {}) =
        decimalToNumber (JSNum.fin (v * 1024)) from by with_unfolding_all rfl]
    exact decimalToNumber_fin_of_small _ (abs_mul_le_pow920 v 1024 hv h1024)
  · rw [show calculateBytes (JSNum.fin v) "Mb" (mergeParseOptions {}) =
        decimalToNumber (JSNum.fin (v * 1000000)) from by with_unfolding_all rfl]
    exact decimalToNumber_fin_of_small _ (abs_mul_le_pow920 v 1000000 hv h1e6)
  · rw [show calculateBytes (JSNum.fin v) "KiB"
            (mergeParseOptions { bits := some true }) =
        decimalToNumber (JSNum.fin (v * 1024 / 8)) from by with_unfolding_all rfl]
    exact decimalToNumber_fin_of_small _ (abs_mul_div_le_pow920 v 1024 8 hv h1024 h8)

/-- **C4, amended — witness** at `v = 8`. -/
theorem C4_bit_units_amended_witness :
    calculateBytes (JSNum.fin 8) "bit" (mergeParseOptions {}) =
        JSNum.fin (8 * 1 / 8) ∧
      calculateBytes (JSNum.fin 8) "Kib" (mergeParseOptions {}) =
        JSNum.fin (8 * 1024) := by
  have h := C4_bit_units_amended.1 8 (by rw [abs_of_pos] <;> norm_num)
  exact ⟨h.1, h.2.2.2.2.1⟩

/-- **C5.** The `round` method maps to `ROUND_HALF_CEIL`: a half-way
value at any decimal-place count rounds toward `+Infinity` — up for
positive values and toward zero for negative ones (`(2m+1)/2` scaled
rounds to `m+1` for every integer `m`); `floor`, `ceil` and `trunc` are
the standard floor, ceiling and toward-zero roundings; concretely,
rounding to an integer sends `-1.5 ↦ -1`, `-2.5 ↦ -2`, `1.5 ↦ 2`,
`2.5 ↦ 3`. -/
theorem C5_rounding_tie_break :
    (∀ (m : ℤ) (d : ℕ),
        decimalRound (JSNum.fin ((2 * (m : ℚ) + 1) / (2 * 10 ^ d)))
            (JSNum.fin (d : ℚ)) RoundingMethod.round =
          Except.ok (JSNum.fin (((m : ℚ) + 1) / 10 ^ d))) ∧
      (∀ (q : ℚ) (d : ℕ),
        decimalRound (JSNum.fin q) (JSNum.fin (d : ℚ)) RoundingMethod.floor =
            Except.ok (JSNum.fin ((⌊q * 10 ^ d⌋ : ℚ) / 10 ^ d)) ∧
          decimalRound (JSNum.fin q) (JSNum.fin (d : ℚ)) RoundingMethod.ceil =
            Except.ok (JSNum.fin ((⌈q * 10 ^ d⌉ : ℚ) / 10 ^ d)) ∧
          decimalRound (JSNum.fin q) (JSNum.fin (d : ℚ)) RoundingMethod.trunc =
            Except.ok (JSNum.fin
              (((if q * 10 ^ d < 0 then ⌈q * 10 ^ d⌉ else ⌊q * 10 ^ d⌋) : ℚ) /
                10 ^ d))) ∧
      roundToDecimals (JSNum.fin (-(3 / 2))) (JSNum.fin 0) RoundingMethod.round =
        Except.ok (JSNum.fin (-1)) ∧
      roundToDecimals (JSNum.fin (-(5 / 2))) (JSNum.fin 0) RoundingMethod.round =
        Except.ok (JSNum.fin (-2)) ∧
      roundToDecimals (JSNum.fin (3 / 2)) (JSNum.fin 0) RoundingMethod.round =
        Except.ok (JSNum.fin 2) ∧
      roundToDecimals (JSNum.fin (5 / 2)) (JSNum.fin 0) RoundingMethod.round =
        Except.ok (JSNum.fin 3) := by
  have hdp : ∀ d : ℕ, isDpArg (JSNum.fin (d : ℚ)) = true := by
    intro d
    simp [isDpArg, Rat.den_natCast, Rat.num_natCast]
  have hdn : ∀ d : ℕ, dpArgToNat (JSNum.fin (d : ℚ)) = d := by
    intro d
    simp [dpArgToNat, Rat.num_natCast]
  refine ⟨fun m d => ?_, fun q d => ?_, by with_unfolding_all rfl,
    by with_unfolding_all rfl, by with_unfolding_all rfl,
    by with_unfolding_all rfl⟩
  · have hpow : ((10 : ℚ) ^ d) ≠ 0 := by positivity
    have harg : (2 * (m : ℚ) + 1) / (2 * 10 ^ d) * 10 ^ d = (m : ℚ) + 1 / 2 := by
      field_simp
      ring_nf
    have hfloor : ⌊(m : ℚ) + 1 / 2⌋ = m := by
      rw [add_comm, Int.floor_add_int]
      norm_num
    simp only [decimalRound, hdp, hdn, if_true, harg]
    simp only [roundingMapInt, hfloor]
    rw [if_neg (by linarith)]
    congr 1
    push_cast
    ring_nf
  · refine ⟨?_, ?_, ?_⟩ <;>
      simp only [decimalRound, hdp, hdn, if_true, roundingMapInt]
    split <;> rfl

/-- **C6.** `format` throws a `TypeError` — for every byte input — when
`decimals` is negative or non-finite, when `exponent` is non-integer or
outside `[0,8]`, or when `fixedWidth` is negative; concretely,
`format(1024, {exponent: 9})` and `format(1024, {exponent: 1.5})` throw,
while `{exponent: 0}` and `{exponent: 8}` return strings. -/
theorem C6_option_validation :
    (∀ (b : ByteValue) (o : FormatOptions) (d : JSNum), o.decimals = some d →
        (d.lt (JSNum.fin 0) || !d.isFinite) = true →
        ∃ s, format b o = Except.error (JSError.typeError s)) ∧
      (∀ (b : ByteValue) (o : FormatOptions) (x : JSNum), o.exponent = some x →
        (!x.isInteger || x.lt (JSNum.fin 0) || (JSNum.fin 8).lt x) = true →
        ∃ s, format b o = Except.error (JSError.typeError s)) ∧
      (∀ (b : ByteValue) (o : FormatOptions) (w : JSNum), o.fixedWidth = some w →
        w.lt (JSNum.fin 0) = true →
        ∃ s, format b o = Except.error (JSError.typeError s)) ∧
      format (ByteValue.num (JSNum.fin 1024)) { exponent := some (JSNum.fin 9) } =
        Except.error (JSError.typeError "exponent must be an integer between 0 and 8") ∧
      format (ByteValue.num (JSNum.fin 1024))
          { exponent := some (JSNum.fin (3 / 2)) } =
        Except.error (JSError.typeError "exponent must be an integer between 0 and 8") ∧
      format (ByteValue.num (JSNum.fin 1024)) { exponent := some (JSNum.fin 0) } =
        Except.ok (FormatResult.str "1024 B") ∧
      format (ByteValue.num (JSNum.fin 1024)) { exponent := some (JSNum.fin 8) } =
        Except.ok (FormatResult.str "0 YiB") := by
  refine ⟨fun b o d h hc => ?_, fun b o x h hc => ?_, fun b o w h hc => ?_,
    by with_unfolding_all rfl, by with_unfolding_all rfl,
    by with_unfolding_all rfl, by with_unfolding_all rfl⟩
  · have h1 : validateDecimals o =
        Except.error (JSError.typeError "decimals must be a non-negative finite number") := by
      unfold validateDecimals
      rw [h]
      dsimp only
      rw [if_pos hc]
    exact ⟨_, format_error_of_validate b o _ (validateOptions_error_of_decimals o _ h1)⟩
  · rcases validateDecimals_cases o with hd | ⟨s, hd⟩
    · have h1 : validateExponentOpt o =
          Except.error (JSError.typeError "exponent must be an integer between 0 and 8") := by
        unfold validateExponentOpt
        rw [h]
        dsimp only
        rw [if_pos hc]
      exact ⟨_, format_error_of_validate b o _
        (validateOptions_error_of_exponent o _ hd h1)⟩
    · exact ⟨s, format_error_of_validate b o _
        (validateOptions_error_of_decimals o _ hd)⟩
  · rcases validateDecimals_cases o with hd | ⟨s, hd⟩
    · rcases validateExponentOpt_cases o with he | ⟨s, he⟩
      · have h1 : validateFixedWidth o =
            Except.error (JSError.typeError "fixedWidth must be non-negative") := by
          unfold validateFixedWidth
          rw [h]
          dsimp only
          rw [if_pos hc]
        exact ⟨_, format_error_of_validate b o _
          (validateOptions_error_of_fixedWidth o _ hd he h1)⟩
      · exact ⟨s, format_error_of_validate b o _
          (validateOptions_error_of_exponent o _ hd he)⟩
    · exact ⟨s, format_error_of_validate b o _
        (validateOptions_error_of_decimals o _ hd)⟩

/-- **C6 — witness**: each of the three throwing conditions applied at a
concrete input. -/
theorem C6_option_validation_witness :
    (∃ s, format (ByteValue.num (JSNum.fin 1))
        { decimals := some (JSNum.fin (-1)) } =
      Except.error (JSError.typeError s)) ∧
      (∃ s, format (ByteValue.num (JSNum.fin 1))
          { exponent := some (JSNum.fin (3 / 2)) } =
        Except.error (JSError.typeError s)) ∧
      (∃ s, format (ByteValue.num (JSNum.fin 1))
          { fixedWidth := some (JSNum.fin (-5)) } =
        Except.error (JSError.typeError s)) :=
  ⟨C6_option_validation.1 _ _ _ rfl (by with_unfolding_all rfl),
    C6_option_validation.2.1 _ _ _ rfl (by with_unfolding_all rfl),
    C6_option_validation.2.2.1 _ _ _ rfl (by with_unfolding_all rfl)⟩

/-- **C7.** `parse(2n**53n - 1n, {strict:true})` returns
`9007199254740991` with no warning and no throw; every BigInt whose
magnitude exceeds `2^53 - 1` throws a `RangeError` under
`{strict:true}`, and under default options warns and returns the
narrowed double `Number(input)`. -/
theorem C7_bigint_boundary :
    parse (ParseInput.big 9007199254740991) { strict := some true } =
        Except.ok ⟨false, JSNum.fin 9007199254740991⟩ ∧
      (∀ n : ℤ, MAX_SAFE_INTEGER < |n| →
        parse (ParseInput.big n) { strict := some true } =
          Except.error (JSError.rangeError
            "hsize: BigInt value exceeds safe integer range, precision would be lost")) ∧
      (∀ n : ℤ, MAX_SAFE_INTEGER < |n| →
        parse (ParseInput.big n) {} = Except.ok ⟨true, jsNumOfInt n⟩) := by
  refine ⟨by with_unfolding_all rfl, fun n h => ?_, fun n h => ?_⟩
  · have hor : MAX_SAFE_INTEGER < n ∨ n < -MAX_SAFE_INTEGER := by
      rcases lt_abs.mp h with h1 | h2
      · exact Or.inl h1
      · exact Or.inr (by omega)
    show parseBigInt n true = _
    unfold parseBigInt
    rw [if_pos hor]
    rfl
  · have hor : MAX_SAFE_INTEGER < n ∨ n < -MAX_SAFE_INTEGER := by
      rcases lt_abs.mp h with h1 | h2
      · exact Or.inl h1
      · exact Or.inr (by omega)
    show parseBigInt n false = _
    unfold parseBigInt
    rw [if_pos hor]
    rfl

/-- **C7 — witness** at `n = 2^53 + 1`. -/
theorem C7_bigint_boundary_witness :
    parse (ParseInput.big 9007199254740993) { strict := some true } =
        Except.error (JSError.rangeError
          "hsize: BigInt value exceeds safe integer range, precision would be lost") ∧
      parse (ParseInput.big 9007199254740993) {} =
        Except.ok ⟨true, jsNumOfInt 9007199254740993⟩ :=
  ⟨C7_bigint_boundary.2.1 9007199254740993 (by norm_num [MAX_SAFE_INTEGER]),
    C7_bigint_boundary.2.2 9007199254740993 (by norm_num [MAX_SAFE_INTEGER])⟩

/-- **C10.** For every input and every options object that passes
validation — indeed for every call of `format` that returns at all — the
exponent it computes, whether returned bare (output `"exponent"`) or
embedded in the `"object"` output, is an integer in `[0,8]`: forced
units, forced exponents and the automatic search are clamped by
`clampExponent`, and the bits carry in `adjustForBits` increments the
exponent only while it is below `MAX_EXPONENT`. -/
theorem C10_exponent_range (bytes : ByteValue) (o : FormatOptions)
    (r : FormatResult) (h : format bytes o = Except.ok r)
    (e : ℤ) (he : expOf r = some e) : 0 ≤ e ∧ e ≤ 8 := by
  unfold format at h
  cases hv : validateOptions o with
  | error err => rw [hv] at h; exact Except.noConfusion h
  | ok u =>
      cases u
      rw [hv] at h
      replace h : (buildState bytes (mergeFormatOptions o) >>= fun state =>
          formatByOutput state (mergeFormatOptions o)) = Except.ok r := h
      cases hb : buildState bytes (mergeFormatOptions o) with
      | error err => rw [hb] at h; exact Except.noConfusion h
      | ok st =>
          rw [hb] at h
          replace h : formatByOutput st (mergeFormatOptions o) = Except.ok r := h
          have hbd := buildState_exponent_bounds bytes (mergeFormatOptions o) st hb
          unfold formatByOutput at h
          cases ho : (mergeFormatOptions o).output with
          | exponentOut =>
              rw [ho] at h
              injection h with h2
              rw [← h2] at he
              injection he with he2
              rw [← he2]
              exact hbd
          | arrayOut =>
              rw [ho] at h
              unfold formatAsArray at h
              cases hr : roundToDecimals st.value (mergeFormatOptions o).decimals
                  (mergeFormatOptions o).roundingMethod with
              | error err => rw [hr] at h; exact Except.noConfusion h
              | ok fv =>
                  rw [hr] at h
                  replace h : Except.ok (FormatResult.arr fv st.unit) =
                      Except.ok r := h
                  injection h with h2
                  rw [← h2] at he
                  exact Option.noConfusion he
          | objectOut =>
              rw [ho] at h
              unfold formatAsObject at h
              cases hr : roundToDecimals st.value (mergeFormatOptions o).decimals
                  (mergeFormatOptions o).roundingMethod with
              | error err => rw [hr] at h; exact Except.noConfusion h
              | ok fv =>
                  rw [hr] at h
                  replace h : Except.ok (FormatResult.obj
                      (match st.bytes with
                        | ByteValue.big n => jsNumOfInt n
                        | ByteValue.num x => x) fv st.unit st.exponent) =
                      Except.ok r := h
                  injection h with h2
                  rw [← h2] at he
                  injection he with he2
                  rw [← he2]
                  exact hbd
          | stringOut =>
              rw [ho] at h
              injection h with h2
              rw [← h2] at he
              exact Option.noConfusion he

/-- **C10 — witness**: `format(1024, {output:"exponent"})` returns the
bare exponent `1`, which the theorem places in `[0,8]`. -/
theorem C10_exponent_range_witness : (0 : ℤ) ≤ 1 ∧ (1 : ℤ) ≤ 8 :=
  C10_exponent_range (ByteValue.num (JSNum.fin 1024))
    { output := some OutputKind.exponentOut } (FormatResult.exp 1)
    (by with_unfolding_all rfl) 1 rfl

/-- **C8, counterexample.** The claim says the singular long-form name is
selected exactly when the *rounded display value's* magnitude equals 1.  For
the input `1025` with `longForm` enabled, the raw scaled value is
`1025/1024`; rounding it to the default `2` decimals with the default
`"round"` method yields exactly `1`, and indeed the rendered number is `"1"`
— yet `format` outputs `"1 kibibytes"`, the plural form, because the code
picks the unit from the value *before* rounding (`buildState` calls
`getUnit` on the unrounded value; rounding happens later in
`formatNumber`). -/
theorem C8_long_form_counterexample :
    roundToDecimals (JSNum.fin (1025/1024)) (JSNum.fin 2)
      RoundingMethod.round = Except.ok (JSNum.fin 1) ∧
    formatStr (ByteValue.num (JSNum.fin 1025)) { longForm := some true } =
      some "1 kibibytes" := by
  constructor
  · with_unfolding_all rfl
  · with_unfolding_all rfl

/-- **C8, amended.** Long-form pluralization, as the code actually behaves:
when `longForm` is enabled (with no custom `unit` or `longForms` override),
for every finite numeric input, the unit string in the built format state is
the singular long-form name exactly when the magnitude of the *pre-rounding*
scaled value equals 1 (the plural form otherwise; 0 is plural).  The
pluralization test happens in `buildState` before any rounding, so it sees
the raw divided value, not the rounded display value. -/
theorem C8_long_form_amended :
    ∀ (q : ℚ) (o : FormatOptions) (st : FormatState),
      validateOptions o = Except.ok () →
      o.longForm = some true → o.unit = none → o.longForms = none →
      buildState (ByteValue.num (JSNum.fin q)) (mergeFormatOptions o) =
        Except.ok st →
      (lastCharIs st.unit 's' = false ↔ st.value.abs = JSNum.fin 1) := by
  intro q o st hval hlf hunit hlfs hbs
  unfold buildState at hbs
  cases hinit : getInitialState (ByteValue.num (JSNum.fin q))
      (mergeFormatOptions o).system with
  | error err => rw [hinit] at hbs; exact Except.noConfusion hbs
  | ok init =>
      rw [hinit] at hbs
      replace hbs : Except.ok (⟨ByteValue.num (JSNum.fin q),
          (computeExponentAndValue init (mergeFormatOptions o)).2,
          (computeExponentAndValue init (mergeFormatOptions o)).1,
          getUnit (mergeFormatOptions o)
            (computeExponentAndValue init (mergeFormatOptions o)).1
            (computeExponentAndValue init (mergeFormatOptions o)).2,
          init.isBigInt, init.isNegative⟩ : FormatState) = Except.ok st := hbs
      injection hbs with h2
      rw [← h2]
      have hbounds := computeExponentAndValue_bounds init (mergeFormatOptions o)
      have hopts_unit : (mergeFormatOptions o).unit = none := hunit
      have hopts_lf : (mergeFormatOptions o).longForm = true := by
        show o.longForm.getD false = true
        rw [hlf]
        rfl
      have hopts_lfs : (mergeFormatOptions o).longForms = none := hlfs
      show (lastCharIs (getUnit (mergeFormatOptions o) _ _) 's' = false ↔ _)
      unfold getUnit
      rw [hopts_unit, hopts_lf, hopts_lfs]
      dsimp only [truthyStr]
      rw [if_pos rfl]
      exact getLongFormUnit_plural_iff _ _ _ hbounds.1 hbounds.2 _

/-- **C8, witness.** The amended theorem applied at the concrete input
`2048` with `longForm` enabled: the state has value `2` (≠ 1) and the plural
unit `"kibibytes"`. -/
theorem C8_long_form_amended_witness :
    (lastCharIs stC8.unit 's' = false ↔ stC8.value.abs = JSNum.fin 1) :=
  C8_long_form_amended 2048 { longForm := some true } stC8
    (by with_unfolding_all rfl) rfl rfl rfl (by with_unfolding_all rfl)

/-- **C9.** Extraction spans and order.  Concretely,
`extract "Size: 1 KiB"` returns exactly one match, with `start = 6`,
`end = 11`, `input = "1 KiB"` and `bytes = 1024`; and universally, for
every text, the matches come back in left-to-right order without
overlap (each match ends at or before the next one starts), and each
match's `input` is exactly the slice of the source text between its
`start` and `end` offsets. -/
theorem C9_extract_spans :
    (extract "Size: 1 KiB" = [mC9] ∧ mC9.start = 6 ∧ mC9.stop = 11 ∧
      mC9.input = "1 KiB" ∧ mC9.bytes = JSNum.fin 1024) ∧
    ∀ text : String,
      List.Chain' (fun a b => a.stop ≤ b.start) (extract text) ∧
      ∀ m ∈ extract text,
        m.start < m.stop ∧ m.stop ≤ text.data.length ∧
        m.input = sliceStr text m.start m.stop := by
  constructor
  · exact ⟨by with_unfolding_all rfl, rfl, rfl, rfl, rfl⟩
  · intro text
    obtain ⟨hA, hC⟩ := extractAux_invariant (text.data.length + 1) text.data 0
    refine ⟨hC, ?_⟩
    intro m hmem
    obtain ⟨h1, h2, h3, h4⟩ := hA m hmem
    refine ⟨h2, by omega, ?_⟩
    rw [Nat.sub_zero] at h4
    show m.input = String.mk ((text.data.drop m.start).take
      (m.stop - m.start))
    exact congrArg String.mk h4

/-- **C9, witness.** The universal part applied to the concrete text
`"Size: 1 KiB"` and its single match. -/
theorem C9_extract_spans_witness :
    mC9.start < mC9.stop ∧
    mC9.stop ≤ ("Size: 1 KiB" : String).data.length ∧
    mC9.input = sliceStr "Size: 1 KiB" mC9.start mC9.stop :=
  (C9_extract_spans.2 "Size: 1 KiB").2 mC9
    (by rw [show extract "Size: 1 KiB" = [mC9] from by with_unfolding_all rfl]
        exact List.mem_singleton.mpr rfl)

end HSize
